import Mathlib

/-!
Verification of the Cerebrum.Server p2p layer (DHT and gossip modules)
against its natural-language specification.

The Python sources are shallowly embedded: node ids are naturals (the
big-endian integer value of the 20 id bytes), XOR distance is `Nat.xor`,
Python dicts become functions into `Option`, mutation becomes explicit
state passing, and `time.time()` becomes an explicit `Nat` clock argument.
-/

namespace Cerebrum

open List

/-! ## cerebrum/p2p/dht/node.py -/

/-- `NodeID.distance`: XOR of the two ids, read as an integer. -/
def dist (a b : Nat) : Nat := Nat.xor a b

/-- A contact (`Node` in node.py): id, address and last-seen stamp. -/
structure Contact where
  node_id : Nat
  ip : String
  port : Nat
  last_seen : Nat
deriving DecidableEq, Repr

/-- A `KBucket`: the stored contacts (oldest first) and the capacity `k`. -/
structure KBucket where
  nodes : List Contact
  k : Nat
deriving DecidableEq, Repr

/-- `KBucket.add_node`: if a contact with the same id exists, pop it and
append the new contact at the tail; else append only when below capacity.
Returns whether the contact was inserted, with the updated bucket. -/
def KBucket.addNode (b : KBucket) (n : Contact) : Bool × KBucket :=
  match b.nodes.findIdx? (fun m => m.node_id == n.node_id) with
  | some i => (true, { b with nodes := b.nodes.eraseIdx i ++ [n] })
  | none =>
    if b.nodes.length < b.k then (true, { b with nodes := b.nodes ++ [n] })
    else (false, b)

/-- Executable form of Python's `int.bit_length()`: the number of
exponents `e` with `2 ^ e ≤ n` (zero for `n = 0`). -/
def bitLen (n : Nat) : Nat :=
  ((List.range (n + 1)).filter (fun e => 2 ^ e ≤ n)).length

/-- A routing table (`RoutingTable`): one bucket per bit of the id space. -/
structure RoutingTable where
  local_node_id : Nat
  k : Nat
  bits : Nat
  buckets : List KBucket
deriving DecidableEq, Repr

/-- The bucket list read at index `i` (empty bucket out of range). -/
def RoutingTable.bucketNodes (rt : RoutingTable) (i : Nat) : List Contact :=
  (rt.buckets.getD i ⟨[], rt.k⟩).nodes

/-- `RoutingTable._get_bucket_index`: `bits - distance.bit_length()`,
with distance `0` mapped to bucket `0`. -/
def RoutingTable.bucketIndex (rt : RoutingTable) (node_id : Nat) : Nat :=
  let d := dist rt.local_node_id node_id
  if d = 0 then 0 else rt.bits - bitLen d

/-- One bucket-widening pass never needs more iterations than the number
of in-range cursor positions still ahead of `left` and `right`. -/
def gatherMeasure (bits : Nat) (left : Int) (right : Nat) : Nat :=
  (left + 1).toNat + (bits - right)

/-- The accumulation loop of `get_closest_nodes`: while fewer than `count`
contacts are gathered and an in-range bucket remains, extend with the
bucket at `left` (when `0 ≤ left`) and then the bucket at `right`
(when `right < bits`), then move both cursors outward.  The `fuel`
argument only bounds the iteration count; any fuel above
`gatherMeasure` gives the same result (`gatherGo_fuel_ge`). -/
def RoutingTable.gatherGo (rt : RoutingTable) (count : Nat) :
    Nat → List Contact → Int → Nat → List Contact
  | 0, nodes, _, _ => nodes
  | fuel + 1, nodes, left, right =>
    if nodes.length < count ∧ (0 ≤ left ∨ right < rt.bits) then
      let n1 := if 0 ≤ left then nodes ++ rt.bucketNodes left.toNat else nodes
      let n2 := if right < rt.bits then n1 ++ rt.bucketNodes right else n1
      rt.gatherGo count fuel n2 (left - 1) (right + 1)
    else nodes

/-- The loop of `get_closest_nodes`, run with enough fuel to reach the
loop's exit condition. -/
def RoutingTable.gather (rt : RoutingTable) (count : Nat)
    (nodes : List Contact) (left : Int) (right : Nat) : List Contact :=
  rt.gatherGo count (gatherMeasure rt.bits left right + 1) nodes left right

/-- The comparison key used by `get_closest_nodes`'s sort. -/
def distLE (t : Nat) (a b : Contact) : Prop :=
  dist t a.node_id ≤ dist t b.node_id

instance (t : Nat) : DecidableRel (distLE t) := fun _ _ =>
  inferInstanceAs (Decidable (_ ≤ _))

/-- `list.sort(key=...)` is a stable sort by the key; `insertionSort` with
the non-strict key order is such a stable sort. -/
def sortByDist (t : Nat) (l : List Contact) : List Contact :=
  l.insertionSort (distLE t)

/-- `RoutingTable.get_closest_nodes`: gather the target bucket, widen to
adjacent buckets until `count` contacts are reached, sort by XOR distance
to the target and keep the first `count`. -/
def RoutingTable.getClosestNodes (rt : RoutingTable) (target : Nat)
    (count : Nat) : List Contact :=
  let bi := rt.bucketIndex target
  let nodes := rt.bucketNodes bi
  (sortByDist target (rt.gather count nodes ((bi : Int) - 1) (bi + 1))).take count

/-- All contacts stored in the table, in bucket order. -/
def RoutingTable.allContacts (rt : RoutingTable) : List Contact :=
  (rt.buckets.map KBucket.nodes).flatten

/-- Modelled from the spec: the brute-force reference scan — every stored
contact, sorted ascending by XOR distance to the target, first `count`. -/
def closestBruteForce (rt : RoutingTable) (target count : Nat) : List Contact :=
  (sortByDist target rt.allContacts).take count

/-- `RoutingTable.add_node`: refuse the local id, else add to the bucket
the id belongs in. -/
def RoutingTable.addNode (rt : RoutingTable) (n : Contact) : Bool × RoutingTable :=
  if n.node_id = rt.local_node_id then (false, rt)
  else
    let i := rt.bucketIndex n.node_id
    let r := (rt.buckets.getD i ⟨[], rt.k⟩).addNode n
    (r.1, { rt with buckets := rt.buckets.set i r.2 })

/-! ## Python dicts as insertion-ordered association lists

Python dicts keep insertion order; writing an existing key updates it in
place, writing a fresh key appends, `del` removes the binding.  All states
built by these operations have pairwise-distinct keys. -/

/-- `d[k]` / `d.get(k)`. -/
def dlookup {κ α : Type} [DecidableEq κ] (d : List (κ × α)) (k : κ) : Option α :=
  (d.find? (fun kv => kv.1 == k)).map (fun kv => kv.2)

/-- `d[k] = v`. -/
def dset {κ α : Type} [DecidableEq κ] : List (κ × α) → κ → α → List (κ × α)
  | [], k, v => [(k, v)]
  | kv :: rest, k, v =>
    if kv.1 = k then (k, v) :: rest else kv :: dset rest k v

/-- `del d[k]` / `d.pop(k, None)`. -/
def ddel {κ α : Type} [DecidableEq κ] : List (κ × α) → κ → List (κ × α)
  | [], _ => []
  | kv :: rest, k => if kv.1 = k then rest else kv :: ddel rest k

/-! ## cerebrum/p2p/dht/node.py — storage and agent registration

Stored values are JSON-like: strings, numbers (timestamps and ports are
modelled with the `Nat` clock), or nested dicts. -/

/-- A primitive JSON value (timestamps and ports use the `Nat` clock). -/
inductive Prim : Type where
  | str : String → Prim
  | num : Nat → Prim
deriving DecidableEq, Repr

/-- A metadata dict: string keys to primitive values. -/
abbrev MetaDict : Type := List (String × Prim)

instance : DecidableEq MetaDict := inferInstanceAs (DecidableEq (List (String × Prim)))

instance : Repr MetaDict := inferInstanceAs (Repr (List (String × Prim)))

/-- A storable value: a primitive or a metadata dict. -/
inductive Val : Type where
  | prim : Prim → Val
  | dict : MetaDict → Val
deriving DecidableEq, Repr

/-- The state of a `DHT` instance that `register_agent` / `find_agent`
touch: identity, address and the local `data_store` dict. -/
structure DHTState where
  node_id : String
  ip : String
  port : Nat
  data_store : List (String × Val)
deriving DecidableEq, Repr

/-- `DHT.store`: write the key locally, report success. -/
def DHTState.store (st : DHTState) (key : String) (v : Val) : Bool × DHTState :=
  (true, { st with data_store := dset st.data_store key v })

/-- `DHT.lookup`: local `data_store.get(key)`. -/
def DHTState.lookupKey (st : DHTState) (key : String) : Option Val :=
  dlookup st.data_store key

/-- `DHT.register_agent`: stamp `last_update`, `node_id`, `node_ip` and
`node_port` into the caller's metadata dict (the source writes the four
keys on the dict it was handed — no copy is taken) and store that same
dict under `agent:<agent_id>`.  The second component of the result is
the content of the caller's dict after the call. -/
def DHTState.registerAgent (st : DHTState) (now : Nat) (agent_id : String)
    (metadata : MetaDict) : Bool × DHTState × MetaDict :=
  let m1 := dset metadata "last_update" (.num now)
  let m2 := dset m1 "node_id" (.str st.node_id)
  let m3 := dset m2 "node_ip" (.str st.ip)
  let m4 := dset m3 "node_port" (.num st.port)
  let r := st.store ("agent:" ++ agent_id) (.dict m4)
  (r.1, r.2, m4)

/-- `DHT.find_agent`: look up `agent:<agent_id>` locally. -/
def DHTState.findAgent (st : DHTState) (agent_id : String) : Option Val :=
  st.lookupKey ("agent:" ++ agent_id)

/-! ## cerebrum/p2p/dht/protocol.py -/

/-- A decoded DHT protocol message, with the data fields the store
handler and the pending-request machinery read. -/
structure DhtMessage where
  msg_type : String
  sender_id : String
  message_id : String
  key : Option String
  value : Option Val
  request_id : Option String
deriving DecidableEq, Repr

/-- `DHTProtocol._handle_store`: store only when `key` is truthy (present
and non-empty) and `value` is not `None`; in that case answer with a
`pong` carrying `request_id` and status `success`.  Otherwise neither the
data store nor the network sees anything. -/
def handleStore (self_id : String) (ds : List (String × Val))
    (m : DhtMessage) : List (String × Val) × Option DhtMessage :=
  match m.key, m.value with
  | some s, some v =>
    if s ≠ "" then
      (dset ds s v,
        some { msg_type := "pong", sender_id := self_id,
               message_id := "", key := none, value := none,
               request_id := some m.message_id })
    else (ds, none)
  | _, _ => (ds, none)

/-- The state of a future held in `pending_requests`. -/
inductive FutureSt : Type where
  | pending : FutureSt
  | done : DhtMessage → FutureSt
deriving DecidableEq, Repr

/-- Externally visible actions of `send_request`, in program order. -/
inductive ProtoAction : Type where
  | registered : String → ProtoAction
  | sent : String → ProtoAction
deriving DecidableEq, Repr

/-- The synchronous head of `DHTProtocol.send_request`: create the future,
register it under the outgoing `message_id`, then send the datagram.
The action list records the order of the two effects. -/
def sendRequestStart (pend : List (String × FutureSt)) (m : DhtMessage) :
    List (String × FutureSt) × List ProtoAction :=
  (dset pend m.message_id FutureSt.pending,
    [ProtoAction.registered m.message_id, ProtoAction.sent m.message_id])

/-- `DHTProtocol._resolve_pending_request`: set the future's result only
when the id is registered and the future is not yet done.  The boolean
reports whether `set_result` ran. -/
def resolvePending (pend : List (String × FutureSt)) (id : String)
    (resp : DhtMessage) : List (String × FutureSt) × Bool :=
  match dlookup pend id with
  | some FutureSt.pending => (dset pend id (FutureSt.done resp), true)
  | some (FutureSt.done _) => (pend, false)
  | none => (pend, false)

/-- The tail of `send_request`: `await wait_for(future, timeout)` returns
the resolved reply, or `None` on timeout; the `finally` block pops the
pending entry either way. -/
def finishRequest (pend : List (String × FutureSt)) (id : String) :
    List (String × FutureSt) × Option DhtMessage :=
  match dlookup pend id with
  | some (FutureSt.done r) => (ddel pend id, some r)
  | _ => (ddel pend id, none)

/-! ## cerebrum/p2p/gossip/protocol.py

Peer state strings; inbound sync data can carry any string, so a fourth
constructor keeps the unknown ones. -/

inductive PState : Type where
  | alive : PState
  | suspect : PState
  | dead : PState
  | other : String → PState
deriving DecidableEq, Repr

/-- A `self.peers[peer_id]` dict.  `ip`, `port` and `last_seen` are
written by every code path that creates an entry; `state`, `incarnation`
and `suspect_time` can be absent when the entry came from a state sync. -/
structure Peer where
  ip : String
  port : Nat
  state : Option PState
  last_seen : Nat
  incarnation : Option Nat
  suspect_time : Option Nat
deriving DecidableEq, Repr

/-- The `peers` dict. -/
abbrev Peers : Type := List (String × Peer)

instance : DecidableEq Peers := inferInstanceAs (DecidableEq (List (String × Peer)))

/-- `GossipProtocol._update_peer`.  On an existing peer the state is
overwritten only for `DEAD`, or for `SUSPECT` when the current state is
`ALIVE`; reading a missing `state` key on the suspect branch raises
`KeyError` in the source after `last_seen` was already written, skipping
the address update.  A new peer starts at incarnation 0. -/
def updatePeer (self : String) (peers : Peers) (pid ip : String)
    (port : Nat) (st : PState) (now : Nat) : Peers :=
  if pid = self then peers
  else
    match dlookup peers pid with
    | some p =>
      let p1 := { p with last_seen := now }
      if st = .dead then
        dset peers pid { p1 with state := some .dead, ip := ip, port := port }
      else if st = .suspect then
        match p1.state with
        | none => dset peers pid p1
        | some s =>
          if s = .alive then
            dset peers pid { p1 with state := some .suspect, ip := ip, port := port }
          else
            dset peers pid { p1 with ip := ip, port := port }
      else
        dset peers pid { p1 with ip := ip, port := port }
    | none =>
      dset peers pid
        { ip := ip, port := port, state := some st, last_seen := now,
          incarnation := some 0, suspect_time := none }

/-- `GossipProtocol._handle_ack`: an ack whose `target` is the local node
revives a `SUSPECT` sender to `ALIVE`. -/
def handleAck (self : String) (peers : Peers) (sender : String)
    (target : Option String) : Peers :=
  if target = some self then
    match dlookup peers sender with
    | some p =>
      if p.state = some .suspect then
        dset peers sender { p with state := some .alive }
      else peers
    | none => peers
  else peers

/-- One entry of the `peers` payload of a `state` message.  Every field
may be absent; `dict.update` keeps the local value for absent fields. -/
structure SyncEntry where
  ip : Option String
  port : Option Nat
  state : Option PState
  last_seen : Option Nat
  incarnation : Option Nat
  suspect_time : Option Nat
deriving DecidableEq, Repr

/-- `dict.update(entry)`: fields present in the entry overwrite. -/
def mergePeer (p : Peer) (e : SyncEntry) : Peer :=
  { ip := e.ip.getD p.ip, port := e.port.getD p.port,
    state := match e.state with | some s => some s | none => p.state,
    last_seen := e.last_seen.getD p.last_seen,
    incarnation := match e.incarnation with | some i => some i | none => p.incarnation,
    suspect_time := match e.suspect_time with | some t => some t | none => p.suspect_time }

/-- One entry of `GossipProtocol._handle_state`'s loop: an existing peer
is merged only under a strictly higher incarnation (`.get` defaults to
0); an unknown peer is inserted when it carries `ip` and `port`, with
`last_seen` stamped to now. -/
def syncEntryStep (self : String) (peers : Peers) (pid : String)
    (e : SyncEntry) (now : Nat) : Peers :=
  if pid = self then peers
  else
    match dlookup peers pid with
    | some p =>
      if e.incarnation.getD 0 > p.incarnation.getD 0 then
        dset peers pid (mergePeer p e)
      else peers
    | none =>
      match e.ip, e.port with
      | some ip, some port =>
        dset peers pid
          { ip := ip, port := port, state := e.state,
            last_seen := now, incarnation := e.incarnation,
            suspect_time := e.suspect_time }
      | _, _ => peers

/-- `GossipProtocol._handle_suspect`: a falsy (absent or empty) peer id
or the local id is ignored; a known, not-DEAD peer becomes SUSPECT with a
suspicion stamp.  Reading a missing `state` key raises in the source and
changes nothing. -/
def handleSuspect (self : String) (peers : Peers) (pid : Option String)
    (now : Nat) : Peers :=
  match pid with
  | none => peers
  | some id =>
    if id = "" ∨ id = self then peers
    else
      match dlookup peers id with
      | some p =>
        match p.state with
        | some s =>
          if s ≠ .dead then
            dset peers id { p with state := some .suspect, suspect_time := some now }
          else peers
        | none => peers
      | none => peers

/-- `GossipProtocol._handle_dead`: mark a known peer DEAD. -/
def handleDead (self : String) (peers : Peers) (pid : Option String) : Peers :=
  match pid with
  | none => peers
  | some id =>
    if id = "" ∨ id = self then peers
    else
      match dlookup peers id with
      | some p => dset peers id { p with state := some .dead }
      | none => peers

/-- The body of `GossipProtocol._check_peers` for one peer: DEAD entries
are removed after `dead_timeout`; SUSPECT entries past
`suspicion_timeout` become DEAD; quiet ALIVE entries become SUSPECT.
A peer with a missing or unknown `state` is untouched. -/
def checkPeerStep (peers : Peers) (pid : String) (now sto dto : Nat) : Peers :=
  match dlookup peers pid with
  | none => peers
  | some p =>
    match p.state with
    | some .dead =>
      if now - p.last_seen > dto then ddel peers pid else peers
    | some .suspect =>
      match p.suspect_time with
      | some t => if now - t > sto then dset peers pid { p with state := some .dead } else peers
      | none => peers
    | some .alive =>
      if now - p.last_seen > sto then
        dset peers pid { p with state := some .suspect, suspect_time := some now }
      else peers
    | some (.other _) => peers
    | none => peers

/-- One locally applied gossip step touching the `peers` dict: an inbound
message first runs `_update_peer(sender, ALIVE)` and then its handler
(modelled as separate steps of each kind); `_handle_state` iterates its
entries one at a time; the cleanup tick iterates `_check_peers` over the
peer ids. -/
inductive GEvent : Type where
  | update : String → String → Nat → PState → GEvent
  | ack : String → Option String → GEvent
  | syncEntry : String → SyncEntry → GEvent
  | suspect : Option String → GEvent
  | dead : Option String → GEvent
  | checkPeer : String → GEvent
deriving DecidableEq, Repr

/-- The transition of the `peers` dict under one gossip step. -/
def gossipStep (self : String) (now sto dto : Nat) (peers : Peers) :
    GEvent → Peers
  | .update pid ip port st => updatePeer self peers pid ip port st now
  | .ack sender target => handleAck self peers sender target
  | .syncEntry pid e => syncEntryStep self peers pid e now
  | .suspect pid => handleSuspect self peers pid now
  | .dead pid => handleDead self peers pid
  | .checkPeer pid => checkPeerStep peers pid now sto dto

/-! ### Message dedup cache and epidemic propagation -/

/-- A gossip message; `data` is the opaque payload text (`str(data)` in
the id derivation).  `ttl` is a Python int and may be negative. -/
structure GossipMsg where
  sender_id : String
  msg_type : String
  data : String
  timestamp : Nat
  ttl : Int
deriving DecidableEq, Repr

/-- The derived `message_id` `f"{sender_id}:{timestamp}:{hash(str(data))}"`,
modelled as the (sender, timestamp, data) triple it is built from. -/
def messageId (m : GossipMsg) : String × Nat × String :=
  (m.sender_id, m.timestamp, m.data)

/-- The `message_cache` dict: message id to the time it was first seen. -/
abbrev MsgCache : Type := List ((String × Nat × String) × Nat)

instance : DecidableEq MsgCache :=
  inferInstanceAs (DecidableEq (List ((String × Nat × String) × Nat)))

instance : Membership ((String × Nat × String) × Nat) MsgCache :=
  inferInstanceAs (Membership _ (List _))

/-- `GossipProtocol._should_process_message`: drop own messages, cached
ids and non-positive TTLs; otherwise record the id and accept. -/
def shouldProcess (self : String) (cache : MsgCache) (now : Nat)
    (m : GossipMsg) : Bool × MsgCache :=
  if m.sender_id = self then (false, cache)
  else if (dlookup cache (messageId m)).isSome then (false, cache)
  else if m.ttl ≤ 0 then (false, cache)
  else (true, dset cache (messageId m) now)

/-- `GossipProtocol._clean_message_cache`: evict entries strictly older
than twice the cleanup interval. -/
def cleanMessageCache (ci now : Nat) (cache : MsgCache) : MsgCache :=
  cache.filter (fun e => ¬ (now - e.2 > 2 * ci))

/-- Executable floor square root: the largest `m ≤ n` with `m * m ≤ n`.
This is the value of Python's `int(n ** 0.5)` (exact for list lengths). -/
def isqrt (n : Nat) : Nat :=
  ((List.range (n + 1)).filter (fun m => 0 < m ∧ m * m ≤ n)).length

/-- `GossipProtocol._propagate_message`: nothing leaves for TTL ≤ 1;
the live-peer comprehension reads `p["state"]` on every known peer, so
if any entry lacks the `state` key it raises `KeyError` before anything
is sent (the exception is caught in `datagram_received`); otherwise,
when a non-DEAD peer exists, a copy with TTL−1 goes to a random sample
of `min(N, max(3, int(N ** 0.5)))` of the `N` live peers.  The random
choice of targets is abstracted to the forwarded message and the sample
size. -/
def propagateMessage (peers : Peers) (m : GossipMsg) :
    Option (GossipMsg × Nat) :=
  if m.ttl ≤ 1 then none
  else
    let newMsg : GossipMsg :=
      { sender_id := m.sender_id, msg_type := m.msg_type, data := m.data,
        timestamp := m.timestamp, ttl := m.ttl - 1 }
    if (peers.map Prod.snd).any (fun p => p.state.isNone) then none
    else
      let live := (peers.map Prod.snd).filter (fun p => p.state ≠ some .dead)
      if live.isEmpty then none
      else some (newMsg, min live.length (max 3 (isqrt live.length)))

/-- Modelled from the spec: the sample-size formula the spec states,
`max(3, ceil(sqrt(N)))` capped at `N`. -/
def specSampleCount (n : Nat) : Nat :=
  let c := if isqrt n * isqrt n = n then isqrt n else isqrt n + 1
  min n (max 3 c)

/-- `datagram_received` followed by `_process_message`: the gate decides
whether callbacks fire and whether the message is re-propagated.  The
`peers`-dict effect of `_process_message` is `gossipStep`; here only the
dedup cache and the forwarding outcome are tracked. -/
def datagramStep (self : String) (cache : MsgCache) (peers : Peers)
    (now : Nat) (m : GossipMsg) : Bool × MsgCache × Option (GossipMsg × Nat) :=
  match shouldProcess self cache now m with
  | (false, c) => (false, c, none)
  | (true, c) => (true, c, propagateMessage peers m)

/-! ## cerebrum/p2p/gossip/agent_presence.py

`AgentPresence.status` is the constant string `active` and is omitted. -/

structure Presence where
  agent_id : String
  node_id : String
  capabilities : List String
  last_updated : Nat
deriving DecidableEq, Repr

/-- The two presence dicts of `AgentPresenceService`. -/
structure PresenceState where
  local_agents : List (String × Presence)
  remote_agents : List (String × Presence)
deriving DecidableEq, Repr

/-- Presence callbacks fired by the handlers. -/
inductive PresenceCb : Type where
  | discovered : String → PresenceCb
  | updated : String → PresenceCb
  | inactive : String → PresenceCb
deriving DecidableEq, Repr

/-- `AgentPresenceService._handle_agent_active`: a missing or empty
`presence` payload is `none`; own agents are skipped; a fresh id is
inserted (firing `agent_discovered`), a known id is replaced only under a
strictly newer `last_updated` (firing `agent_updated`). -/
def handleAgentActive (self : String) (remote : List (String × Presence))
    (pOpt : Option Presence) : List (String × Presence) × Option PresenceCb :=
  match pOpt with
  | none => (remote, none)
  | some p =>
    if p.node_id = self then (remote, none)
    else
      match dlookup remote p.agent_id with
      | none => (dset remote p.agent_id p, some (.discovered p.agent_id))
      | some ex =>
        if p.last_updated > ex.last_updated then
          (dset remote p.agent_id p, some (.updated p.agent_id))
        else (remote, none)

/-- `AgentPresenceService._handle_agent_info`: accepted only when the
payload is present and `target` equals the local node id; own agents are
skipped; a fresh id is inserted (`agent_discovered`), a known id replaced
only under a strictly newer stamp (`agent_updated`). -/
def handleAgentInfo (self : String) (remote : List (String × Presence))
    (pOpt : Option Presence) (target : Option String) :
    List (String × Presence) × Option PresenceCb :=
  match pOpt with
  | none => (remote, none)
  | some p =>
    if target ≠ some self then (remote, none)
    else if p.node_id = self then (remote, none)
    else
      match dlookup remote p.agent_id with
      | none => (dset remote p.agent_id p, some (.discovered p.agent_id))
      | some ex =>
        if p.last_updated > ex.last_updated then
          (dset remote p.agent_id p, some (.updated p.agent_id))
        else (remote, none)

/-- `AgentPresenceService._handle_agent_inactive`: falsy ids are ignored;
the remote entry is removed only when its recorded hosting node matches. -/
def handleAgentInactive (remote : List (String × Presence))
    (aid nid : Option String) : List (String × Presence) × Option PresenceCb :=
  match aid, nid with
  | some a, some n =>
    if a = "" ∨ n = "" then (remote, none)
    else
      match dlookup remote a with
      | some p =>
        if p.node_id = n then (ddel remote a, some (.inactive a))
        else (remote, none)
      | none => (remote, none)
  | _, _ => (remote, none)

/-- The service steps the claims range over (the service is running). -/
inductive PEvent : Type where
  | register : String → List String → PEvent
  | unregister : String → PEvent
  | updateCaps : String → List String → PEvent
  | activeMsg : Option Presence → PEvent
  | inactiveMsg : Option String → Option String → PEvent
  | infoMsg : Option Presence → Option String → PEvent
deriving DecidableEq, Repr

/-- The transition of the two presence dicts under one service step.
`register_agent` writes only `local_agents`; `unregister_agent` and
`update_agent_capabilities` touch only an existing local entry; the
inbound handlers touch only `remote_agents`. -/
def presenceStep (self : String) (now : Nat) (s : PresenceState) :
    PEvent → PresenceState
  | .register aid caps =>
    { s with local_agents :=
        (dset s.local_agents aid
          { agent_id := aid, node_id := self, capabilities := caps,
            last_updated := now }) }
  | .unregister aid =>
    match dlookup s.local_agents aid with
    | some _ => { s with local_agents := ddel s.local_agents aid }
    | none => s
  | .updateCaps aid caps =>
    match dlookup s.local_agents aid with
    | some p =>
      { s with local_agents :=
          (dset s.local_agents aid
            { p with capabilities := caps, last_updated := now }) }
    | none => s
  | .activeMsg pOpt =>
    { s with remote_agents := (handleAgentActive self s.remote_agents pOpt).1 }
  | .inactiveMsg aid nid =>
    { s with remote_agents := (handleAgentInactive s.remote_agents aid nid).1 }
  | .infoMsg pOpt target =>
    { s with remote_agents := (handleAgentInfo self s.remote_agents pOpt target).1 }

/-- A timed sequence of service steps applied in order. -/
def presenceRun (self : String) (s : PresenceState) :
    List (Nat × PEvent) → PresenceState
  | [] => s
  | (now, e) :: rest => presenceRun self (presenceStep self now s e) rest

/-- The empty service state. -/
def presenceInit : PresenceState := { local_agents := [], remote_agents := [] }

/-- Strict distance order (used to compare sorted outputs). -/
def distLT (t : Nat) (a b : Contact) : Prop :=
  dist t a.node_id < dist t b.node_id

instance (t : Nat) : IsTotal Contact (distLE t) :=
  ⟨fun _ _ => Nat.le_total _ _⟩

instance (t : Nat) : IsTrans Contact (distLE t) :=
  ⟨fun _ _ _ => Nat.le_trans⟩

instance (t : Nat) : IsAntisymm Contact (distLT t) :=
  ⟨fun _ _ h1 h2 => absurd (Nat.lt_trans h1 h2) (Nat.lt_irrefl _)⟩

/-- The flattened contacts of the contiguous bucket slice `[lo, hi)`. -/
def sliceF (L : List (List Contact)) (lo hi : Nat) : List Contact :=
  ((L.take hi).drop lo).flatten

/-! ## Concrete states used to instantiate the theorems -/

/-- Contact with id 0 (XOR distance 4 from local id 4, bucket 0). -/
def cA : Contact := ⟨0, "10.0.0.1", 9001, 0⟩

/-- Contact with id 5 (XOR distance 1 from local id 4, bucket 2). -/
def cB : Contact := ⟨5, "10.0.0.2", 9002, 0⟩

/-- Contact with id 6 (XOR distance 2 from local id 4, bucket 1). -/
def cC : Contact := ⟨6, "10.0.0.3", 9003, 0⟩

/-- An empty 3-bit routing table with local id 4. -/
def rtZero : RoutingTable :=
  ⟨4, 20, 3, [⟨[], 20⟩, ⟨[], 20⟩, ⟨[], 20⟩]⟩

/-- The table `add_node` builds from `rtZero` by inserting `cA`, `cB`. -/
def rtCex : RoutingTable :=
  ⟨4, 20, 3, [⟨[cA], 20⟩, ⟨[], 20⟩, ⟨[cB], 20⟩]⟩

/-- A populated 3-bit routing table with one contact per bucket. -/
def rtWit : RoutingTable :=
  ⟨4, 20, 3, [⟨[cA], 20⟩, ⟨[cC], 20⟩, ⟨[cB], 20⟩]⟩

/-- A re-seen contact: the id of `cA` at a new address. -/
def cA2 : Contact := ⟨0, "10.0.0.9", 9009, 7⟩

/-- A two-contact bucket at capacity 2. -/
def bWit : KBucket := ⟨[cA, cB], 2⟩

/-- A DHT node state with an empty data store. -/
def stWit : DHTState := ⟨"node1", "127.0.0.1", 8468, []⟩

/-- A one-entry caller metadata dict. -/
def mWit : MetaDict := [("capability", Prim.str "chat")]

/-- A well-formed inbound store request. -/
def msgStore : DhtMessage :=
  ⟨"store", "sender1", "mid1", some "k1", some (Val.prim (Prim.str "v1")), none⟩

/-- A pending-request table with one unresolved entry. -/
def pendWit : List (String × FutureSt) := [("req1", FutureSt.pending)]

/-- A reply message used to resolve `req1`. -/
def respWit : DhtMessage := ⟨"pong", "peer2", "mid9", none, none, some "req1"⟩

/-- An inbound gossip message with two hops left. -/
def gmWit : GossipMsg := ⟨"peerA", "state", "payload", 50, 3⟩

/-- A dedup cache already holding `gmWit`'s id. -/
def cacheWit : MsgCache := [((("peerA", 50, "payload") : String × Nat × String), 60)]

/-- Ten ALIVE peers (the boundary where floor and ceiling of √N differ). -/
def peers10 : Peers :=
  (List.range 10).map (fun i =>
    ("p" ++ toString i,
      { ip := "10.1.0.1", port := 9100 + i, state := some PState.alive,
        last_seen := 0, incarnation := some 0, suspect_time := none }))

/-- A presence announced by a foreign node. -/
def presWit : Presence := ⟨"agentX", "nodeB", ["chat"], 10⟩

/-- Register agent `a1` locally, then receive a foreign announcement for
the same agent id. -/
def evsCex : List (Nat × PEvent) :=
  [(0, PEvent.register "a1" []),
   (1, PEvent.activeMsg (some ⟨"a1", "nodeB", [], 5⟩))]

/-- A peer recorded DEAD at incarnation 0. -/
def peerDeadW : Peer :=
  { ip := "10.2.0.1", port := 9200, state := some PState.dead,
    last_seen := 3, incarnation := some 0, suspect_time := none }

/-- A state-sync entry carrying incarnation 1 and state ALIVE. -/
def entryW : SyncEntry :=
  { ip := none, port := none, state := some PState.alive,
    last_seen := some 4, incarnation := some 1, suspect_time := none }

/-- A peers dict holding only the dead peer `p1`. -/
def peersDeadW : Peers := [("p1", peerDeadW)]

/-! # Theorems -/

/-- The fuel is only a termination device: any two fuels above the
measure produce the same list. -/
theorem RoutingTable.gatherGo_fuel_ge (rt : RoutingTable) (count : Nat) :
    ∀ f₁ f₂ : Nat, ∀ nodes left right,
      gatherMeasure rt.bits left right < f₁ →
      gatherMeasure rt.bits left right < f₂ →
      rt.gatherGo count f₁ nodes left right = rt.gatherGo count f₂ nodes left right := by
  intro f₁
  induction f₁ using Nat.strong_induction_on with
  | _ f₁ ih =>
    intro f₂ nodes left right h₁ h₂
    match f₁, f₂ with
    | g₁ + 1, g₂ + 1 =>
      simp only [RoutingTable.gatherGo]
      by_cases hc : nodes.length < count ∧ (0 ≤ left ∨ right < rt.bits)
      · simp only [if_pos hc]
        have hm : gatherMeasure rt.bits (left - 1) (right + 1)
            < gatherMeasure rt.bits left right := by
          unfold gatherMeasure
          rcases hc.2 with hl | hr
          · omega
          · omega
        exact ih g₁ (by omega) g₂ _ _ _ (by omega) (by omega)
      · simp only [if_neg hc]

/-! ## Dict op lemmas -/

theorem dlookup_nil {κ α : Type} [DecidableEq κ] (k : κ) :
    dlookup ([] : List (κ × α)) k = none := rfl

theorem dlookup_cons {κ α : Type} [DecidableEq κ]
    (kv : κ × α) (rest : List (κ × α)) (k : κ) :
    dlookup (kv :: rest) k = if kv.1 = k then some kv.2 else dlookup rest k := by
  by_cases h : kv.1 = k
  · simp only [dlookup, List.find?, if_pos h, show (kv.1 == k) = true by simpa using h]
    rfl
  · simp only [dlookup, List.find?, if_neg h, show (kv.1 == k) = false by simpa using h]

theorem dlookup_dset_self {κ α : Type} [DecidableEq κ]
    (d : List (κ × α)) (k : κ) (v : α) : dlookup (dset d k v) k = some v := by
  induction d with
  | nil => simp [dset, dlookup_cons]
  | cons kv rest ih =>
    by_cases h : kv.1 = k
    · simp [dset, h, dlookup_cons]
    · simp [dset, h, dlookup_cons, ih]

theorem dlookup_dset_ne {κ α : Type} [DecidableEq κ]
    (d : List (κ × α)) (k k' : κ) (v : α) (h : k' ≠ k) :
    dlookup (dset d k v) k' = dlookup d k' := by
  induction d with
  | nil => simp [dset, dlookup_cons, dlookup_nil, Ne.symm h]
  | cons kv rest ih =>
    by_cases hk : kv.1 = k
    · subst hk
      have hne : kv.1 ≠ k' := fun hh => h hh.symm
      simp [dset, dlookup_cons, Ne.symm h, hne]
    · simp [dset, hk, dlookup_cons, ih]

theorem dlookup_ddel_ne {κ α : Type} [DecidableEq κ]
    (d : List (κ × α)) (k k' : κ) (h : k' ≠ k) :
    dlookup (ddel d k) k' = dlookup d k' := by
  induction d with
  | nil => simp [ddel]
  | cons kv rest ih =>
    by_cases hk : kv.1 = k
    · subst hk
      have hne : kv.1 ≠ k' := fun hh => h hh.symm
      simp [ddel, dlookup_cons, hne]
    · simp [ddel, hk, dlookup_cons, ih]

theorem dlookup_mem_keys {κ α : Type} [DecidableEq κ]
    (d : List (κ × α)) (k : κ) (v : α) (h : dlookup d k = some v) :
    k ∈ d.map Prod.fst := by
  induction d with
  | nil => simp [dlookup] at h
  | cons kv rest ih =>
    by_cases hk : kv.1 = k
    · simp [hk]
    · rw [dlookup_cons, if_neg hk] at h
      simpa using Or.inr (ih h)

theorem dlookup_ddel_self {κ α : Type} [DecidableEq κ]
    (d : List (κ × α)) (k : κ) (hnd : (d.map Prod.fst).Nodup) :
    dlookup (ddel d k) k = none := by
  induction d with
  | nil => simp [ddel, dlookup]
  | cons kv rest ih =>
    simp only [List.map_cons, List.nodup_cons] at hnd
    by_cases hk : kv.1 = k
    · subst hk
      simp only [ddel, if_pos rfl]
      rcases h : dlookup rest kv.1 with _ | v
      · exact h
      · exact absurd (dlookup_mem_keys rest kv.1 v h) hnd.1
    · rw [ddel, if_neg hk, dlookup_cons, if_neg hk]
      exact ih hnd.2

/-! ## bit_length and bucket indexing -/

theorem filter_range_lt (s m : Nat) (h : s ≤ m) :
    (List.range m).filter (fun k => decide (k < s)) = List.range s := by
  induction m with
  | zero =>
    have : s = 0 := Nat.le_zero.mp h
    simp [this]
  | succ m ih =>
    by_cases hs : s ≤ m
    · rw [List.range_succ, List.filter_append, ih hs]
      have : ¬ m < s := by omega
      simp [this]
    · have hsm : s = m + 1 := by omega
      subst hsm
      rw [List.filter_eq_self.mpr]
      intro a ha
      simpa using List.mem_range.mp ha

theorem bitLen_eq_size (n : Nat) : bitLen n = Nat.size n := by
  unfold bitLen
  have h1 : ∀ e ∈ List.range (n + 1),
      (decide (2 ^ e ≤ n)) = (decide (e < Nat.size n)) := by
    intro e _
    simp [Nat.lt_size]
  rw [List.filter_congr h1, filter_range_lt (Nat.size n) (n + 1)
    (Nat.le_trans (Nat.size_le.mpr (Nat.lt_two_pow n)) (Nat.le_succ n)),
    List.length_range]

theorem bucketIndex_lt (rt : RoutingTable) (h : 0 < rt.bits) (nid : Nat) :
    rt.bucketIndex nid < rt.bits := by
  unfold RoutingTable.bucketIndex
  by_cases hd : dist rt.local_node_id nid = 0
  · simpa [hd] using h
  · have hpos : 0 < bitLen (dist rt.local_node_id nid) := by
      rw [bitLen_eq_size]
      exact Nat.size_pos.mpr (Nat.pos_of_ne_zero hd)
    simp only [if_neg hd]
    omega

/-! ## Sorting by distance -/

theorem sortByDist_sorted (t : Nat) (l : List Contact) :
    List.Sorted (distLE t) (sortByDist t l) :=
  List.sorted_insertionSort _ l

theorem sortByDist_perm (t : Nat) (l : List Contact) :
    sortByDist t l ~ l :=
  List.perm_insertionSort _ l

theorem dist_inj (t a b : Nat) (h : dist t a = dist t b) : a = b := by
  have ex : ∀ x y : Nat, Nat.xor x y = x ^^^ y := fun _ _ => rfl
  have h2 := congrArg (fun x => t ^^^ x) h
  simp only [dist, ex] at h2
  rwa [Nat.xor_cancel_left, Nat.xor_cancel_left] at h2

theorem pairwise_strict_of_nodup (t : Nat) (l : List Contact)
    (hnd : (l.map Contact.node_id).Nodup) (hs : List.Sorted (distLE t) l) :
    l.Pairwise (distLT t) := by
  have hnd' : l.Pairwise (fun a b => a.node_id ≠ b.node_id) :=
    List.pairwise_map.mp hnd
  exact (hs.and hnd').imp (fun {a b} hab =>
    Nat.lt_of_le_of_ne hab.1 (fun he => hab.2 (dist_inj t _ _ he)))

/-- Two permutations of the same contacts with pairwise-distinct ids have
equal distance-sorted forms. -/
theorem sortByDist_eq_of_perm (t : Nat) (l₁ l₂ : List Contact)
    (hp : l₁ ~ l₂) (hnd : (l₂.map Contact.node_id).Nodup) :
    sortByDist t l₁ = sortByDist t l₂ := by
  have hperm : sortByDist t l₁ ~ sortByDist t l₂ :=
    ((sortByDist_perm t l₁).trans hp).trans (sortByDist_perm t l₂).symm
  have hnd₁ : ((sortByDist t l₁).map Contact.node_id).Nodup := by
    refine (List.Perm.nodup_iff ?_).mpr hnd
    exact ((sortByDist_perm t l₁).trans hp).map _
  have hnd₂ : ((sortByDist t l₂).map Contact.node_id).Nodup := by
    refine (List.Perm.nodup_iff ?_).mpr hnd
    exact (sortByDist_perm t l₂).map _
  exact List.eq_of_perm_of_sorted hperm
    (pairwise_strict_of_nodup t _ hnd₁ (sortByDist_sorted t l₁))
    (pairwise_strict_of_nodup t _ hnd₂ (sortByDist_sorted t l₂))

/-! ## The bucket-widening loop -/

theorem bucketNodes_eq (rt : RoutingTable) (i : Nat) :
    rt.bucketNodes i = (rt.buckets.map KBucket.nodes).getD i [] := by
  unfold RoutingTable.bucketNodes
  by_cases h : i < rt.buckets.length
  · rw [List.getD_eq_getElem _ _ h,
      List.getD_eq_getElem _ _ (by simpa using h)]
    simp
  · rw [List.getD_eq_default _ _ (by omega),
      List.getD_eq_default _ _ (by simpa using Nat.le_of_not_lt h)]

theorem mem_bucketNodes (rt : RoutingTable) (i : Nat) (x : Contact)
    (hx : x ∈ rt.bucketNodes i) : x ∈ rt.allContacts := by
  rw [bucketNodes_eq] at hx
  by_cases h : i < (rt.buckets.map KBucket.nodes).length
  · rw [List.getD_eq_getElem _ _ h] at hx
    exact List.mem_flatten.mpr ⟨_, List.getElem_mem h, hx⟩
  · rw [List.getD_eq_default _ _ (Nat.le_of_not_lt h)] at hx
    simp at hx

theorem gatherGo_mem (rt : RoutingTable) (count : Nat) :
    ∀ fuel nodes (left : Int) right (x : Contact),
      (∀ y ∈ nodes, y ∈ rt.allContacts) →
      x ∈ rt.gatherGo count fuel nodes left right → x ∈ rt.allContacts := by
  intro fuel
  induction fuel with
  | zero => intro nodes left right x hsub hx; exact hsub x hx
  | succ fuel ih =>
    intro nodes left right x hsub hx
    rw [RoutingTable.gatherGo] at hx
    by_cases hc : nodes.length < count ∧ (0 ≤ left ∨ right < rt.bits)
    · rw [if_pos hc] at hx
      refine ih _ _ _ x ?_ hx
      intro y hy
      by_cases h1 : (0 ≤ left)
      · by_cases h2 : right < rt.bits
        · simp only [if_pos h1, if_pos h2, List.mem_append] at hy
          rcases hy with (hy | hy) | hy
          · exact hsub y hy
          · exact mem_bucketNodes rt _ y hy
          · exact mem_bucketNodes rt _ y hy
        · simp only [if_pos h1, if_neg h2, List.mem_append] at hy
          rcases hy with hy | hy
          · exact hsub y hy
          · exact mem_bucketNodes rt _ y hy
      · by_cases h2 : right < rt.bits
        · simp only [if_neg h1, if_pos h2, List.mem_append] at hy
          rcases hy with hy | hy
          · exact hsub y hy
          · exact mem_bucketNodes rt _ y hy
        · simp only [if_neg h1, if_neg h2] at hy
          exact hsub y hy
    · rw [if_neg hc] at hx
      exact hsub x hx

theorem sublist_flatten_of_sublist (l1 l2 : List (List Contact))
    (h : l1.Sublist l2) : l1.flatten.Sublist l2.flatten := by
  induction h with
  | slnil => simp
  | cons a h ih => simpa using ih.trans (List.sublist_append_right a _)
  | cons₂ a h ih => simpa using List.Sublist.append_left ih a

theorem sliceF_sublist (L : List (List Contact)) (lo hi : Nat) :
    (sliceF L lo hi).Sublist L.flatten :=
  sublist_flatten_of_sublist _ _ ((List.drop_sublist _ _).trans (List.take_sublist _ _))

theorem sliceF_full (L : List (List Contact)) : sliceF L 0 L.length = L.flatten := by
  unfold sliceF
  simp

theorem sliceF_single (L : List (List Contact)) (i : Nat) (h : i < L.length) :
    sliceF L i (i + 1) = L.getD i [] := by
  unfold sliceF
  rw [List.take_succ,
    List.drop_append_of_le_length (by simp; omega),
    List.drop_eq_nil_of_le (by simp),
    List.getElem?_eq_getElem h,
    List.getD_eq_getElem _ _ h]
  simp

theorem sliceF_front (L : List (List Contact)) (lo hi : Nat)
    (h1 : 1 ≤ lo) (h2 : lo - 1 < hi) (h3 : hi ≤ L.length) :
    sliceF L (lo - 1) hi = L.getD (lo - 1) [] ++ sliceF L lo hi := by
  unfold sliceF
  have hlen : lo - 1 < (L.take hi).length := by simp; omega
  rw [List.drop_eq_getElem_cons hlen, List.flatten_cons, List.getElem_take,
    List.getD_eq_getElem _ _ (by omega), show lo - 1 + 1 = lo by omega]

theorem sliceF_back (L : List (List Contact)) (lo hi : Nat)
    (h1 : lo ≤ hi) (h2 : hi < L.length) :
    sliceF L lo (hi + 1) = sliceF L lo hi ++ L.getD hi [] := by
  unfold sliceF
  rw [List.take_succ,
    List.drop_append_of_le_length (by simp; omega),
    List.flatten_append, List.getElem?_eq_getElem h2,
    List.getD_eq_getElem _ _ h2]
  simp

theorem gatherGo_perm (rt : RoutingTable) (count : Nat)
    (hlen : rt.buckets.length = rt.bits)
    (htot : rt.allContacts.length ≤ count) :
    ∀ (fuel : Nat) (nodes : List Contact) (left : Int) (right : Nat),
      gatherMeasure rt.bits left right < fuel →
      (left + 1).toNat < min right rt.bits →
      nodes ~ sliceF (rt.buckets.map KBucket.nodes) (left + 1).toNat (min right rt.bits) →
      rt.gatherGo count fuel nodes left right ~ rt.allContacts := by
  have hL : (rt.buckets.map KBucket.nodes).length = rt.bits := by
    simpa using hlen
  intro fuel
  induction fuel with
  | zero =>
    intro nodes left right hm
    exact absurd hm (by omega)
  | succ fuel ih =>
    intro nodes left right hm hlh hperm
    rw [RoutingTable.gatherGo]
    by_cases hc : nodes.length < count ∧ (0 ≤ left ∨ right < rt.bits)
    · rw [if_pos hc]
      have hbound : (left + 1).toNat < rt.bits := by omega
      -- the list after the two conditional extensions, as a slice perm
      have step : ∀ hi' lo' : Nat,
          lo' = (left - 1 + 1).toNat →
          hi' = min (right + 1) rt.bits →
          (if right < rt.bits then
              (if 0 ≤ left then nodes ++ rt.bucketNodes left.toNat else nodes)
                ++ rt.bucketNodes right
            else if 0 ≤ left then nodes ++ rt.bucketNodes left.toNat else nodes)
            ~ sliceF (rt.buckets.map KBucket.nodes) lo' hi' := by
        intro hi' lo' hlo' hhi'
        have hn1 : (if 0 ≤ left then nodes ++ rt.bucketNodes left.toNat else nodes)
            ~ sliceF (rt.buckets.map KBucket.nodes) lo' (min right rt.bits) := by
          by_cases h1 : 0 ≤ left
          · have hlo1 : (left + 1).toNat = lo' + 1 := by omega
            have hfr := sliceF_front (rt.buckets.map KBucket.nodes)
              (lo' + 1) (min right rt.bits) (by omega)
              (by omega) (by omega)
            rw [if_pos h1, show left.toNat = lo' by omega,
              bucketNodes_eq rt lo']
            calc nodes ++ (rt.buckets.map KBucket.nodes).getD lo' []
                ~ sliceF (rt.buckets.map KBucket.nodes) (lo' + 1) (min right rt.bits)
                    ++ (rt.buckets.map KBucket.nodes).getD lo' [] :=
                  (hlo1 ▸ hperm).append_right _
              _ ~ (rt.buckets.map KBucket.nodes).getD lo' []
                    ++ sliceF (rt.buckets.map KBucket.nodes) (lo' + 1) (min right rt.bits) :=
                  List.perm_append_comm
              _ = sliceF (rt.buckets.map KBucket.nodes) lo' (min right rt.bits) := by
                  rw [show lo' = lo' + 1 - 1 by omega] at hfr ⊢
                  exact hfr.symm
          · have : (left + 1).toNat = lo' := by omega
            rw [if_neg h1]
            exact this ▸ hperm
        by_cases h2 : right < rt.bits
        · rw [if_pos h2, bucketNodes_eq rt right]
          have hback := sliceF_back (rt.buckets.map KBucket.nodes)
            lo' right (by omega) (by omega)
          have hmin : min right rt.bits = right := by omega
          have hmin' : hi' = right + 1 := by omega
          rw [hmin'] at *
          calc (if 0 ≤ left then nodes ++ rt.bucketNodes left.toNat else nodes)
                ++ (rt.buckets.map KBucket.nodes).getD right []
              ~ sliceF (rt.buckets.map KBucket.nodes) lo' right
                  ++ (rt.buckets.map KBucket.nodes).getD right [] := by
                refine List.Perm.append_right _ ?_
                rw [← hmin]
                exact hn1
            _ = sliceF (rt.buckets.map KBucket.nodes) lo' (right + 1) := hback.symm
        · rw [if_neg h2]
          have : min right rt.bits = hi' := by omega
          exact this ▸ hn1
      refine ih _ (left - 1) (right + 1) (by unfold gatherMeasure at hm ⊢; omega) ?_ ?_
      · rcases hc.2 with h | h
        · omega
        · omega
      · exact step _ _ rfl rfl
    · rw [if_neg hc]
      rcases Decidable.not_and_iff_or_not.mp hc with h | h
      · -- count reached: the slice already holds every stored contact
        have hsub := sliceF_sublist (rt.buckets.map KBucket.nodes)
          (left + 1).toNat (min right rt.bits)
        have hlen1 : nodes.length =
            (sliceF (rt.buckets.map KBucket.nodes) (left + 1).toNat (min right rt.bits)).length :=
          hperm.length_eq
        have hlen2 := hsub.length_le
        have hflatlen : (rt.buckets.map KBucket.nodes).flatten.length
            = rt.allContacts.length := rfl
        have heq : sliceF (rt.buckets.map KBucket.nodes) (left + 1).toNat (min right rt.bits)
            = (rt.buckets.map KBucket.nodes).flatten :=
          hsub.eq_of_length (by omega)
        rw [heq] at hperm
        exact hperm
      · -- both cursors out of range
        have h1 : ¬ 0 ≤ left ∧ ¬ right < rt.bits := by
          constructor <;> intro hx <;> exact h (by tauto)
        have hlo : (left + 1).toNat = 0 := by omega
        have hhi : min right rt.bits = rt.bits := by omega
        rw [hlo, hhi, ← hL, sliceF_full] at hperm
        exact hperm

/-! ## Claim C1 -/

/-- C1, refuted as stated and amended: `get_closest_nodes(t, c)` returns
at most `c` stored contacts sorted ascending by XOR distance to `t`, but
they are the first `c` of the bucket-widening accumulation only — not in
general the globally closest `c`.  When `c` covers every stored contact
(and ids are pairwise distinct) the result does agree with the
brute-force scan. -/
theorem spec_C1 (rt : RoutingTable) (target count : Nat) :
    List.Sorted (distLE target) (rt.getClosestNodes target count) ∧
    (rt.getClosestNodes target count).length ≤ count ∧
    (∀ x ∈ rt.getClosestNodes target count, x ∈ rt.allContacts) ∧
    (rt.buckets.length = rt.bits → 0 < rt.bits →
      rt.allContacts.length ≤ count →
      (rt.allContacts.map Contact.node_id).Nodup →
      rt.getClosestNodes target count = closestBruteForce rt target count) := by
  refine ⟨?_, ?_, ?_, ?_⟩
  · exact List.Pairwise.sublist (List.take_sublist _ _) (sortByDist_sorted target _)
  · simp only [RoutingTable.getClosestNodes, List.length_take]
    omega
  · intro x hx
    have hx1 : x ∈ sortByDist target
        (rt.gather count (rt.bucketNodes (rt.bucketIndex target))
          ((rt.bucketIndex target : Int) - 1) (rt.bucketIndex target + 1)) :=
      List.mem_of_mem_take hx
    have hx2 := (sortByDist_perm target _).subset hx1
    exact gatherGo_mem rt count _ _ _ _ x
      (fun y hy => mem_bucketNodes rt _ y hy) hx2
  · intro hlen hbits hcnt hnd
    have hbi : rt.bucketIndex target < rt.bits := bucketIndex_lt rt hbits target
    have hL : (rt.buckets.map KBucket.nodes).length = rt.bits := by simpa using hlen
    have hperm0 : rt.bucketNodes (rt.bucketIndex target)
        ~ sliceF (rt.buckets.map KBucket.nodes)
            (((rt.bucketIndex target : Int) - 1 + 1).toNat)
            (min (rt.bucketIndex target + 1) rt.bits) := by
      have h1 : (((rt.bucketIndex target : Int) - 1 + 1)).toNat = rt.bucketIndex target := by
        omega
      have h2 : min (rt.bucketIndex target + 1) rt.bits = rt.bucketIndex target + 1 := by
        omega
      rw [h1, h2, sliceF_single _ _ (by omega), bucketNodes_eq]
    have hg : rt.gather count (rt.bucketNodes (rt.bucketIndex target))
        ((rt.bucketIndex target : Int) - 1) (rt.bucketIndex target + 1) ~ rt.allContacts := by
      unfold RoutingTable.gather
      exact gatherGo_perm rt count hlen hcnt _ _ _ _ (Nat.lt_succ_self _)
        (by omega) hperm0
    simp only [RoutingTable.getClosestNodes, closestBruteForce]
    rw [sortByDist_eq_of_perm target _ rt.allContacts hg hnd]

/-- Witness for the amended C1 at a concrete populated table. -/
theorem spec_C1_witness :
    rtWit.buckets.length = rtWit.bits ∧ 0 < rtWit.bits ∧
    rtWit.allContacts.length ≤ 5 ∧
    (rtWit.allContacts.map Contact.node_id).Nodup ∧
    rtWit.getClosestNodes 7 5 = closestBruteForce rtWit 7 5 :=
  ⟨by decide, by decide, by decide, by decide,
    (spec_C1 rtWit 7 5).2.2.2 (by decide) (by decide) (by decide) (by decide)⟩

/-- Counterexample to C1 as stated: on the reachable table holding
contacts with ids 0 and 5 (local id 4), a query for the local id with
count 1 returns the contact at distance 4 although the stored contact at
distance 1 exists — the brute-force scan disagrees. -/
theorem spec_C1_cex :
    ((rtZero.addNode cA).2.addNode cB).2 = rtCex ∧
    rtCex.getClosestNodes 4 1 = [cA] ∧
    closestBruteForce rtCex 4 1 = [cB] ∧
    rtCex.getClosestNodes 4 1 ≠ closestBruteForce rtCex 4 1 := by
  refine ⟨by decide, by decide, by decide, by decide⟩

/-! ## Claim C3 -/

theorem eraseIdx_eq_filter_of_found (nid : Nat) :
    ∀ (l : List Contact), (l.map Contact.node_id).Nodup →
    ∀ i (hi : i < l.length),
      (l[i].node_id == nid) = true →
      (∀ j, j < i → ∀ (hj2 : j < l.length), ¬(l[j].node_id == nid) = true) →
      l.eraseIdx i = l.filter (fun m => m.node_id != nid) := by
  intro l
  induction l with
  | nil =>
    intro _ i hi
    exact absurd hi (by simp)
  | cons m rest ih =>
    intro hnd i hi hp hjlt
    simp only [List.map_cons, List.nodup_cons] at hnd
    match i with
    | 0 =>
      simp only [List.getElem_cons_zero, beq_iff_eq] at hp
      have hm : (m.node_id != nid) = false := by simp [hp]
      have hrest : rest.filter (fun m => m.node_id != nid) = rest := by
        refine List.filter_eq_self.mpr ?_
        intro r hr
        have : r.node_id ≠ nid := by
          intro he
          exact hnd.1 (hp ▸ he ▸ List.mem_map_of_mem Contact.node_id hr)
        simp [this]
      simp [List.eraseIdx, List.filter_cons, hm, hrest]
    | j + 1 =>
      have hm : ¬(m.node_id == nid) = true := hjlt 0 (by omega) (by simp)
      have hm' : (m.node_id != nid) = true := by
        simpa using fun he => hm (by simp [he])
      have hrec := ih hnd.2 j (by simpa using hi)
        (by simpa using hp)
        (fun j' hj1 hj2 => by
          simpa using hjlt (j' + 1) (by omega) (by simpa using hj2))
      simp [List.eraseIdx, List.filter_cons, hm', hrec]

/-- C3 confirmed: on a bucket with pairwise-distinct ids, re-adding a
known id pops the old entry and appends the new contact at the tail
(inserted, length unchanged); a fresh id is appended iff the bucket is
below capacity and refused on a full bucket with the bucket unchanged;
ids stay pairwise distinct. -/
theorem spec_C3 (b : KBucket) (n : Contact)
    (hnd : (b.nodes.map Contact.node_id).Nodup) :
    (n.node_id ∈ b.nodes.map Contact.node_id →
      (b.addNode n).1 = true ∧
      (b.addNode n).2.nodes
        = b.nodes.filter (fun m => m.node_id != n.node_id) ++ [n] ∧
      (b.addNode n).2.nodes.length = b.nodes.length) ∧
    (n.node_id ∉ b.nodes.map Contact.node_id →
      b.addNode n
        = (if b.nodes.length < b.k
            then (true, { b with nodes := b.nodes ++ [n] })
            else (false, b))) ∧
    ((b.addNode n).2.nodes.map Contact.node_id).Nodup := by
  rcases hfind : b.nodes.findIdx? (fun m => m.node_id == n.node_id) with _ | i
  · -- no entry with this id
    have hnotmem : n.node_id ∉ b.nodes.map Contact.node_id := by
      intro hmem
      rcases List.mem_map.mp hmem with ⟨m, hm, hid⟩
      have := List.findIdx?_eq_none_iff.mp hfind m hm
      simp [hid] at this
    refine ⟨fun hmem => absurd hmem hnotmem, fun _ => ?_, ?_⟩
    · unfold KBucket.addNode
      rw [hfind]
    · unfold KBucket.addNode
      rw [hfind]
      by_cases hlt : b.nodes.length < b.k
      · simp only [if_pos hlt, List.map_append]
        refine List.Nodup.append hnd (by simp) ?_
        intro a ha hb
        simp only [List.map_cons, List.map_nil, List.mem_singleton] at hb
        exact hnotmem (hb ▸ ha)
      · simpa [if_neg hlt] using hnd
  · -- found at index i
    rcases List.findIdx?_eq_some_iff_getElem.mp hfind with ⟨hi, hp, hjlt⟩
    have herase := eraseIdx_eq_filter_of_found n.node_id b.nodes hnd i hi hp
      (fun j hj1 hj2 => hjlt j hj1)
    have hmem : n.node_id ∈ b.nodes.map Contact.node_id := by
      have : b.nodes[i].node_id = n.node_id := by simpa using hp
      exact this ▸ List.mem_map_of_mem Contact.node_id (List.getElem_mem hi)
    have hstep : b.addNode n
        = (true, { b with nodes := b.nodes.eraseIdx i ++ [n] }) := by
      unfold KBucket.addNode
      rw [hfind]
    have hres : b.addNode n
        = (true, { b with nodes := b.nodes.filter (fun m => m.node_id != n.node_id) ++ [n] }) := by
      rw [hstep, herase]
    have hlenf : (b.nodes.filter (fun m => m.node_id != n.node_id)).length
        = b.nodes.length - 1 := by
      rw [← herase, List.length_eraseIdx]
      simp [hi]
    have hnotf : n.node_id ∉ (b.nodes.filter (fun m => m.node_id != n.node_id)).map Contact.node_id := by
      intro hmf
      rcases List.mem_map.mp hmf with ⟨m, hm, hid⟩
      have := List.of_mem_filter hm
      simp [hid] at this
    refine ⟨fun _ => ⟨by rw [hres], by rw [hres], ?_⟩, fun hnm => absurd hmem hnm, ?_⟩
    · rw [hres]
      simp only [List.length_append, List.length_cons, List.length_nil, hlenf]
      omega
    · rw [hres]
      simp only [List.map_append]
      refine List.Nodup.append (hnd.sublist ((List.filter_sublist _).map _)) (by simp) ?_
      intro a ha hb
      simp only [List.map_cons, List.map_nil, List.mem_singleton] at hb
      exact hnotf (hb ▸ ha)

/-- Witness for C3: re-inserting id 0 into a full 2-bucket keeps the
length and moves the contact to the tail. -/
theorem spec_C3_witness :
    (bWit.nodes.map Contact.node_id).Nodup ∧
    cA2.node_id ∈ bWit.nodes.map Contact.node_id ∧
    ((bWit.addNode cA2).1 = true ∧
      (bWit.addNode cA2).2.nodes
        = bWit.nodes.filter (fun m => m.node_id != cA2.node_id) ++ [cA2] ∧
      (bWit.addNode cA2).2.nodes.length = bWit.nodes.length) :=
  ⟨by decide, by decide, (spec_C3 bWit cA2 (by decide)).1 (by decide)⟩

/-! ## Claim C8 -/

/-- C8, refuted as stated and amended: `register_agent` stamps
`last_update`, `node_id`, `node_ip` and `node_port` into the caller's own
metadata dict (no copy is taken, so the caller's dict is mutated), keeps
every other key, stores that same dict under `agent:<agent_id>` and
reports success; `find_agent` on the same node then returns exactly that
record.  Other data-store keys and the node's identity are untouched. -/
theorem spec_C8 (st : DHTState) (now : Nat) (aid : String) (m : MetaDict) :
    (st.registerAgent now aid m).1 = true ∧
    dlookup (st.registerAgent now aid m).2.2 "last_update" = some (Prim.num now) ∧
    dlookup (st.registerAgent now aid m).2.2 "node_id" = some (Prim.str st.node_id) ∧
    dlookup (st.registerAgent now aid m).2.2 "node_ip" = some (Prim.str st.ip) ∧
    dlookup (st.registerAgent now aid m).2.2 "node_port" = some (Prim.num st.port) ∧
    (∀ k : String, k ≠ "last_update" → k ≠ "node_id" → k ≠ "node_ip" →
      k ≠ "node_port" →
      dlookup (st.registerAgent now aid m).2.2 k = dlookup m k) ∧
    (st.registerAgent now aid m).2.1.findAgent aid
      = some (Val.dict (st.registerAgent now aid m).2.2) ∧
    (st.registerAgent now aid m).2.1.node_id = st.node_id ∧
    (st.registerAgent now aid m).2.1.ip = st.ip ∧
    (st.registerAgent now aid m).2.1.port = st.port ∧
    (∀ key : String, key ≠ "agent:" ++ aid →
      dlookup (st.registerAgent now aid m).2.1.data_store key
        = dlookup st.data_store key) := by
  refine ⟨rfl, ?_, ?_, ?_, ?_, ?_, ?_, rfl, rfl, rfl, ?_⟩
  · simp only [DHTState.registerAgent]
    rw [dlookup_dset_ne _ _ _ _ (by decide), dlookup_dset_ne _ _ _ _ (by decide),
      dlookup_dset_ne _ _ _ _ (by decide), dlookup_dset_self]
  · simp only [DHTState.registerAgent]
    rw [dlookup_dset_ne _ _ _ _ (by decide), dlookup_dset_ne _ _ _ _ (by decide),
      dlookup_dset_self]
  · simp only [DHTState.registerAgent]
    rw [dlookup_dset_ne _ _ _ _ (by decide), dlookup_dset_self]
  · simp only [DHTState.registerAgent]
    rw [dlookup_dset_self]
  · intro k h1 h2 h3 h4
    simp only [DHTState.registerAgent]
    rw [dlookup_dset_ne _ _ _ _ h4, dlookup_dset_ne _ _ _ _ h3,
      dlookup_dset_ne _ _ _ _ h2, dlookup_dset_ne _ _ _ _ h1]
  · simp only [DHTState.registerAgent, DHTState.findAgent, DHTState.lookupKey,
      DHTState.store]
    rw [dlookup_dset_self]
  · intro key hk
    simp only [DHTState.registerAgent, DHTState.store]
    rw [dlookup_dset_ne _ _ _ _ hk]

/-- Witness for the amended C8 at a concrete node and metadata dict. -/
theorem spec_C8_witness :
    ("x" : String) ≠ "last_update" ∧
    dlookup (stWit.registerAgent 100 "a1" mWit).2.2 "node_id"
      = some (Prim.str stWit.node_id) ∧
    (stWit.registerAgent 100 "a1" mWit).2.1.findAgent "a1"
      = some (Val.dict (stWit.registerAgent 100 "a1" mWit).2.2) ∧
    dlookup (stWit.registerAgent 100 "a1" mWit).2.2 "capability"
      = dlookup mWit "capability" :=
  ⟨by decide, (spec_C8 stWit 100 "a1" mWit).2.2.1,
    (spec_C8 stWit 100 "a1" mWit).2.2.2.2.2.2.1,
    (spec_C8 stWit 100 "a1" mWit).2.2.2.2.2.1 "capability"
      (by decide) (by decide) (by decide) (by decide)⟩

/-- Counterexample to C8 as stated: the caller's metadata dict is not
left unchanged — after the call it carries the four stamped keys. -/
theorem spec_C8_cex :
    (stWit.registerAgent 100 "a1" mWit).2.2 ≠ mWit ∧
    dlookup mWit "node_id" = none ∧
    dlookup (stWit.registerAgent 100 "a1" mWit).2.2 "node_id"
      = some (Prim.str "node1") := by
  refine ⟨by decide, by decide, by decide⟩

/-! ## Claim C10 -/

/-- C10 confirmed: the store handler writes the key and answers with a
success pong carrying the request's `message_id` exactly when the key is
present and non-empty and the value is not `None`; otherwise the data
store is unchanged and no datagram is sent. -/
theorem spec_C10 (self : String) (ds : List (String × Val)) (m : DhtMessage) :
    (∀ s v, m.key = some s → s ≠ "" → m.value = some v →
      handleStore self ds m
        = (dset ds s v,
            some { msg_type := "pong", sender_id := self, message_id := "",
                   key := none, value := none,
                   request_id := some m.message_id })) ∧
    (m.key = none ∨ m.key = some "" ∨ m.value = none →
      handleStore self ds m = (ds, none)) := by
  constructor
  · intro s v hk hs hv
    simp [handleStore, hk, hv, hs]
  · intro h
    rcases h with h | h | h
    · rcases hv : m.value with _ | v <;> simp [handleStore, h, hv]
    · rcases hv : m.value with _ | v <;> simp [handleStore, h, hv]
    · rcases hk : m.key with _ | s <;> simp [handleStore, h, hk]

/-- Witness for C10: a well-formed store request writes the key and
produces the pong. -/
theorem spec_C10_witness :
    msgStore.key = some "k1" ∧ ("k1" : String) ≠ "" ∧
    msgStore.value = some (Val.prim (Prim.str "v1")) ∧
    handleStore "node1" [] msgStore
      = (dset [] "k1" (Val.prim (Prim.str "v1")),
          some { msg_type := "pong", sender_id := "node1", message_id := "",
                 key := none, value := none, request_id := some "mid1" }) :=
  ⟨rfl, by decide, rfl,
    (spec_C10 "node1" [] msgStore).1 "k1" (Val.prim (Prim.str "v1"))
      rfl (by decide) rfl⟩

/-! ## Claim C7 -/

/-- C7 confirmed: `send_request` registers the pending future under the
outgoing message id before the datagram leaves; a matching reply resolves
a pending future exactly once (`set_result` runs and the entry becomes
done), while a reply for an absent or already-resolved id changes nothing
and never calls `set_result`; the awaiting side returns the reply when
the future resolved and a miss (`None`) on timeout, and evicts the entry
in both cases. -/
theorem spec_C7 (pend : List (String × FutureSt)) (m : DhtMessage)
    (id : String) (resp r : DhtMessage) :
    (sendRequestStart pend m).2
      = [ProtoAction.registered m.message_id, ProtoAction.sent m.message_id] ∧
    dlookup (sendRequestStart pend m).1 m.message_id = some FutureSt.pending ∧
    (dlookup pend id = some FutureSt.pending →
      resolvePending pend id resp = (dset pend id (FutureSt.done resp), true) ∧
      dlookup (resolvePending pend id resp).1 id = some (FutureSt.done resp)) ∧
    (dlookup pend id = none →
      resolvePending pend id resp = (pend, false)) ∧
    (dlookup pend id = some (FutureSt.done r) →
      resolvePending pend id resp = (pend, false)) ∧
    (dlookup pend id = some FutureSt.pending →
      finishRequest pend id = (ddel pend id, none)) ∧
    (dlookup pend id = some (FutureSt.done r) →
      finishRequest pend id = (ddel pend id, some r)) ∧
    ((pend.map Prod.fst).Nodup → dlookup (ddel pend id) id = none) := by
  refine ⟨rfl, ?_, ?_, ?_, ?_, ?_, ?_, ?_⟩
  · simp only [sendRequestStart]
    exact dlookup_dset_self _ _ _
  · intro h
    constructor
    · simp [resolvePending, h]
    · simp only [resolvePending, h]
      exact dlookup_dset_self _ _ _
  · intro h
    simp [resolvePending, h]
  · intro h
    simp [resolvePending, h]
  · intro h
    simp [finishRequest, h]
  · intro h
    simp [finishRequest, h]
  · intro h
    exact dlookup_ddel_self _ _ h

/-- Witness for C7: resolving the one pending entry marks it done and
reports that `set_result` ran; finishing afterwards would time out the
same entry and evict it. -/
theorem spec_C7_witness :
    dlookup pendWit "req1" = some FutureSt.pending ∧
    (resolvePending pendWit "req1" respWit
        = (dset pendWit "req1" (FutureSt.done respWit), true) ∧
      dlookup (resolvePending pendWit "req1" respWit).1 "req1"
        = some (FutureSt.done respWit)) ∧
    finishRequest pendWit "req1" = (ddel pendWit "req1", none) ∧
    ((pendWit.map Prod.fst).Nodup → dlookup (ddel pendWit "req1") "req1" = none) :=
  ⟨by decide,
    (spec_C7 pendWit respWit "req1" respWit respWit).2.2.1 (by decide),
    (spec_C7 pendWit respWit "req1" respWit respWit).2.2.2.2.2.1 (by decide),
    (spec_C7 pendWit respWit "req1" respWit respWit).2.2.2.2.2.2.2⟩

/-! ## Claim C4 -/

/-- C4 confirmed: a message whose id is already cached is dropped without
touching the cache and without firing handlers or forwarding; a fresh,
foreign, positive-TTL message is processed once and its id recorded at
the current time; the cache cleanup keeps exactly the entries no older
than twice the cleanup interval. -/
theorem spec_C4 (self : String) (cache : MsgCache) (peers : Peers)
    (now ci : Nat) (m : GossipMsg) :
    ((dlookup cache (messageId m)).isSome →
      datagramStep self cache peers now m = (false, cache, none)) ∧
    (m.sender_id ≠ self → dlookup cache (messageId m) = none → 0 < m.ttl →
      (datagramStep self cache peers now m).1 = true ∧
      (datagramStep self cache peers now m).2.1
        = dset cache (messageId m) now) ∧
    (∀ e : (String × Nat × String) × Nat,
      e ∈ cleanMessageCache ci now cache ↔ e ∈ cache ∧ ¬(now - e.2 > 2 * ci)) := by
  refine ⟨?_, ?_, ?_⟩
  · intro h
    by_cases hs : m.sender_id = self
    · simp [datagramStep, shouldProcess, hs]
    · simp [datagramStep, shouldProcess, hs, h]
  · intro hs hc ht
    have hnp : ¬ m.ttl ≤ 0 := by omega
    constructor
    · simp [datagramStep, shouldProcess, hs, hc, hnp]
    · simp [datagramStep, shouldProcess, hs, hc, hnp]
  · intro e
    simp [cleanMessageCache, List.mem_filter]

/-- Witness for C4: delivering `gmWit` while its id sits in the cache is
a complete no-op, and the cleanup keeps the 10-second-old entry for a
30-second interval. -/
theorem spec_C4_witness :
    (dlookup cacheWit (messageId gmWit)).isSome ∧
    datagramStep "self" cacheWit [] 70 gmWit = (false, cacheWit, none) ∧
    ((("peerA", 50, "payload") : String × Nat × String), 60) ∈
      cleanMessageCache 30 70 cacheWit :=
  ⟨by decide,
    (spec_C4 "self" cacheWit [] 70 30 gmWit).1 (by decide),
    ((spec_C4 "self" cacheWit [] 70 30 gmWit).2.2 _).mpr ⟨by decide, by decide⟩⟩

/-! ## Claim C6 -/

/-- C6, refuted as stated and amended: messages from the local node, with
non-positive TTL, or with a cached id are dropped unprocessed and never
forwarded; when any known peer entry lacks the `state` key the live-peer
scan raises `KeyError` and nothing is forwarded; otherwise a processed
message with TTL > 1 is forwarded with TTL − 1 to a random sample of
`min(N, max(3, int(N ** 0.5)))` of the `N` non-DEAD peers — the floor of
√N, not its ceiling — and nothing is forwarded when no live peer exists
or TTL ≤ 1. -/
theorem spec_C6 (self : String) (cache : MsgCache) (peers : Peers)
    (now : Nat) (m : GossipMsg) :
    (m.sender_id = self ∨ (dlookup cache (messageId m)).isSome ∨ m.ttl ≤ 0 →
      datagramStep self cache peers now m = (false, cache, none)) ∧
    (m.ttl ≤ 1 → propagateMessage peers m = none) ∧
    ((peers.map Prod.snd).any (fun p => p.state.isNone) = true →
      propagateMessage peers m = none) ∧
    (∀ msg cnt, propagateMessage peers m = some (msg, cnt) →
      1 < m.ttl ∧
      (peers.map Prod.snd).any (fun p => p.state.isNone) = false ∧
      msg = { sender_id := m.sender_id, msg_type := m.msg_type, data := m.data,
              timestamp := m.timestamp, ttl := m.ttl - 1 } ∧
      cnt = min ((peers.map Prod.snd).filter (fun p => p.state ≠ some .dead)).length
          (max 3 (isqrt ((peers.map Prod.snd).filter (fun p => p.state ≠ some .dead)).length)) ∧
      ((peers.map Prod.snd).filter (fun p => p.state ≠ some .dead)) ≠ []) ∧
    (1 < m.ttl →
      (peers.map Prod.snd).any (fun p => p.state.isNone) = false →
      ((peers.map Prod.snd).filter (fun p => p.state ≠ some .dead)) ≠ [] →
      (propagateMessage peers m).isSome) := by
  refine ⟨?_, ?_, ?_, ?_, ?_⟩
  · intro h
    rcases h with h | h | h
    · simp [datagramStep, shouldProcess, h]
    · by_cases hs : m.sender_id = self
      · simp [datagramStep, shouldProcess, hs]
      · simp [datagramStep, shouldProcess, hs, h]
    · by_cases hs : m.sender_id = self
      · simp [datagramStep, shouldProcess, hs]
      · by_cases hc : (dlookup cache (messageId m)).isSome
        · simp [datagramStep, shouldProcess, hs, hc]
        · simp [datagramStep, shouldProcess, hs,
            Option.not_isSome_iff_eq_none.mp hc, h]
  · intro h
    simp [propagateMessage, h]
  · intro hk
    unfold propagateMessage
    by_cases ht : m.ttl ≤ 1
    · rw [if_pos ht]
    · rw [if_neg ht]
      dsimp only
      rw [if_pos hk]
  · intro msg cnt h
    unfold propagateMessage at h
    by_cases ht : m.ttl ≤ 1
    · rw [if_pos ht] at h
      exact absurd h (by simp)
    · rw [if_neg ht] at h
      dsimp only at h
      by_cases hk : (peers.map Prod.snd).any (fun p => p.state.isNone) = true
      · rw [if_pos hk] at h
        exact absurd h (by simp)
      · rw [if_neg hk] at h
        have hkf : (peers.map Prod.snd).any (fun p => p.state.isNone) = false := by
          simpa using hk
        by_cases he : ((peers.map Prod.snd).filter (fun p => p.state ≠ some .dead)).isEmpty
        · rw [if_pos he] at h
          exact absurd h (by simp)
        · rw [if_neg he] at h
          have h2 := Option.some.inj h
          refine ⟨by omega, hkf, (congrArg Prod.fst h2).symm,
            (congrArg Prod.snd h2).symm,
            by simpa [List.isEmpty_iff] using he⟩
  · intro ht hks he
    unfold propagateMessage
    rw [if_neg (by omega)]
    dsimp only
    rw [if_neg (by simp [hks])]
    rw [if_neg (by simpa [List.isEmpty_iff] using he)]
    simp

/-- Witness for the amended C6: with ten live peers (each carrying a
`state` key) a TTL-3 message is forwarded with TTL 2 to
`min(10, max(3, isqrt 10)) = 3` targets. -/
theorem spec_C6_witness :
    propagateMessage peers10 gmWit = some ({ gmWit with ttl := 2 }, 3) ∧
    (1 : Int) < gmWit.ttl ∧
    (peers10.map Prod.snd).any (fun p => p.state.isNone) = false ∧
    ((peers10.map Prod.snd).filter (fun p => p.state ≠ some .dead)) ≠ [] ∧
    (propagateMessage peers10 gmWit).isSome :=
  ⟨by decide, by decide, by decide, by decide,
    (spec_C6 "self" [] peers10 0 gmWit).2.2.2.2 (by decide) (by decide)
      (by decide)⟩

/-- Counterexample to C6 as stated: at `N = 10` live peers the code
samples `max(3, int(10 ** 0.5)) = 3` targets, while the claimed formula
`max(3, ceil(sqrt 10))` capped at `N` gives 4. -/
theorem spec_C6_cex :
    ((peers10.map Prod.snd).filter (fun p => p.state ≠ some .dead)).length = 10 ∧
    propagateMessage peers10 gmWit = some ({ gmWit with ttl := 2 }, 3) ∧
    specSampleCount 10 = 4 ∧ (3 : Nat) ≠ 4 := by
  refine ⟨by decide, by decide, by decide, by decide⟩

/-! ## Generic dict membership lemmas -/

theorem mem_of_mem_dset {κ α : Type} [DecidableEq κ]
    (d : List (κ × α)) (k : κ) (v : α) (x : κ × α)
    (hx : x ∈ dset d k v) : x = (k, v) ∨ x ∈ d := by
  induction d with
  | nil => simpa [dset] using hx
  | cons kv rest ih =>
    by_cases h : kv.1 = k
    · simp only [dset, if_pos h, List.mem_cons] at hx
      rcases hx with hx | hx
      · exact Or.inl hx
      · exact Or.inr (List.mem_cons_of_mem _ hx)
    · simp only [dset, if_neg h, List.mem_cons] at hx
      rcases hx with hx | hx
      · exact Or.inr (hx ▸ List.mem_cons_self _ _)
      · rcases ih hx with hx | hx
        · exact Or.inl hx
        · exact Or.inr (List.mem_cons_of_mem _ hx)

theorem mem_of_mem_ddel {κ α : Type} [DecidableEq κ]
    (d : List (κ × α)) (k : κ) (x : κ × α)
    (hx : x ∈ ddel d k) : x ∈ d := by
  induction d with
  | nil => simp [ddel] at hx
  | cons kv rest ih =>
    by_cases h : kv.1 = k
    · simp only [ddel, if_pos h] at hx
      exact List.mem_cons_of_mem _ hx
    · simp only [ddel, if_neg h, List.mem_cons] at hx
      rcases hx with hx | hx
      · exact hx ▸ List.mem_cons_self _ _
      · exact List.mem_cons_of_mem _ (ih hx)

theorem dlookup_mem {κ α : Type} [DecidableEq κ]
    (d : List (κ × α)) (k : κ) (v : α) (h : dlookup d k = some v) :
    (k, v) ∈ d := by
  induction d with
  | nil => simp [dlookup] at h
  | cons kv rest ih =>
    rw [dlookup_cons] at h
    by_cases hk : kv.1 = k
    · rw [if_pos hk] at h
      have hv := Option.some.inj h
      have : kv = (k, v) := by
        cases kv
        simp only at hk hv
        simp [hk, hv]
      exact this ▸ List.mem_cons_self _ _
    · rw [if_neg hk] at h
      exact List.mem_cons_of_mem _ (ih h)

/-! ## Claim C5 -/

/-- Each non-`agent_inactive` service step keeps a present remote entry
present, with a `last_updated` at least the old one. -/
theorem remote_step_mono (self : String) (now : Nat) (s : PresenceState)
    (e : PEvent) (hne : ∀ a n, e ≠ PEvent.inactiveMsg a n)
    (id : String) (p₀ : Presence)
    (h : dlookup s.remote_agents id = some p₀) :
    ∃ p₁, dlookup (presenceStep self now s e).remote_agents id = some p₁ ∧
      p₀.last_updated ≤ p₁.last_updated := by
  cases e with
  | register aid caps => exact ⟨p₀, h, Nat.le_refl _⟩
  | unregister aid =>
    rcases hl : dlookup s.local_agents aid with _ | q
    · exact ⟨p₀, by simpa [presenceStep, hl] using h, Nat.le_refl _⟩
    · exact ⟨p₀, by simpa [presenceStep, hl] using h, Nat.le_refl _⟩
  | updateCaps aid caps =>
    rcases hl : dlookup s.local_agents aid with _ | q
    · exact ⟨p₀, by simpa [presenceStep, hl] using h, Nat.le_refl _⟩
    · exact ⟨p₀, by simpa [presenceStep, hl] using h, Nat.le_refl _⟩
  | inactiveMsg a n => exact absurd rfl (hne a n)
  | activeMsg pOpt =>
    rcases pOpt with _ | q
    · exact ⟨p₀, h, Nat.le_refl _⟩
    · simp only [presenceStep, handleAgentActive]
      by_cases hq : q.node_id = self
      · simpa [hq] using ⟨p₀, h, Nat.le_refl _⟩
      · rcases hlook : dlookup s.remote_agents q.agent_id with _ | ex
        · by_cases hid : id = q.agent_id
          · rw [hid] at h
            rw [h] at hlook
            exact absurd hlook (by simp)
          · exact ⟨p₀, by simpa [hq, hlook] using
              (dlookup_dset_ne s.remote_agents q.agent_id id q hid).trans h,
              Nat.le_refl _⟩
        · by_cases hnew : ex.last_updated < q.last_updated
          · by_cases hid : id = q.agent_id
            · subst hid
              have hex : ex = p₀ := by
                rw [h] at hlook
                exact (Option.some.inj hlook).symm
              refine ⟨q, ?_, ?_⟩
              · simp [hq, hlook, hnew, dlookup_dset_self]
              · exact Nat.le_of_lt (hex ▸ hnew)
            · exact ⟨p₀, by simpa [hq, hlook, hnew] using
                (dlookup_dset_ne s.remote_agents q.agent_id id q hid).trans h,
                Nat.le_refl _⟩
          · exact ⟨p₀, by simpa [hq, hlook, hnew] using h, Nat.le_refl _⟩
  | infoMsg pOpt tgt =>
    rcases pOpt with _ | q
    · exact ⟨p₀, h, Nat.le_refl _⟩
    · simp only [presenceStep, handleAgentInfo]
      by_cases htgt : tgt ≠ some self
      · simpa [htgt] using ⟨p₀, h, Nat.le_refl _⟩
      · by_cases hq : q.node_id = self
        · simpa [htgt, hq] using ⟨p₀, h, Nat.le_refl _⟩
        · rcases hlook : dlookup s.remote_agents q.agent_id with _ | ex
          · by_cases hid : id = q.agent_id
            · rw [hid] at h
              rw [h] at hlook
              exact absurd hlook (by simp)
            · exact ⟨p₀, by simpa [htgt, hq, hlook] using
                (dlookup_dset_ne s.remote_agents q.agent_id id q hid).trans h,
                Nat.le_refl _⟩
          · by_cases hnew : ex.last_updated < q.last_updated
            · by_cases hid : id = q.agent_id
              · subst hid
                have hex : ex = p₀ := by
                  rw [h] at hlook
                  exact (Option.some.inj hlook).symm
                refine ⟨q, ?_, ?_⟩
                · simp [htgt, hq, hlook, hnew, dlookup_dset_self]
                · exact Nat.le_of_lt (hex ▸ hnew)
              · exact ⟨p₀, by simpa [htgt, hq, hlook, hnew] using
                  (dlookup_dset_ne s.remote_agents q.agent_id id q hid).trans h,
                  Nat.le_refl _⟩
            · exact ⟨p₀, by simpa [htgt, hq, hlook, hnew] using h, Nat.le_refl _⟩

/-- Over any run without `agent_inactive` messages, a present remote
entry stays present with a non-decreasing `last_updated`. -/
theorem remote_run_mono (self : String) :
    ∀ (evs : List (Nat × PEvent)) (s : PresenceState) (id : String)
      (p₀ p₁ : Presence),
      (∀ te ∈ evs, ∀ a n, te.2 ≠ PEvent.inactiveMsg a n) →
      dlookup s.remote_agents id = some p₀ →
      dlookup (presenceRun self s evs).remote_agents id = some p₁ →
      p₀.last_updated ≤ p₁.last_updated := by
  intro evs
  induction evs with
  | nil =>
    intro s id p₀ p₁ _ h0 h1
    rw [presenceRun] at h1
    rw [h0] at h1
    exact (Option.some.inj h1) ▸ Nat.le_refl _
  | cons te rest ih =>
    intro s id p₀ p₁ hsafe h0 h1
    obtain ⟨now, e⟩ := te
    obtain ⟨p₂, h2, hle⟩ := remote_step_mono self now s e
      (hsafe (now, e) (List.mem_cons_self _ _)) id p₀ h0
    rw [presenceRun] at h1
    exact Nat.le_trans hle
      (ih (presenceStep self now s e) id p₂ p₁
        (fun te' h' => hsafe te' (List.mem_cons_of_mem _ h')) h2 h1)

/-- C5 confirmed: an `agent_active` (and an accepted `agent_info`) for a
foreign agent inserts a fresh id firing `agent_discovered`, replaces a
known id only under a strictly greater `last_updated` firing
`agent_updated`, and otherwise leaves the cache untouched; an
`agent_info` whose target is not the local node is ignored; hence along
any run without `agent_inactive` removals the remote cache's
`last_updated` for any id never decreases. -/
theorem spec_C5 (self : String) (remote : List (String × Presence))
    (p ex : Presence) (tgt : Option String) :
    (p.node_id ≠ self → dlookup remote p.agent_id = none →
      handleAgentActive self remote (some p)
        = (dset remote p.agent_id p, some (PresenceCb.discovered p.agent_id))) ∧
    (p.node_id ≠ self → dlookup remote p.agent_id = some ex →
      (ex.last_updated < p.last_updated →
        handleAgentActive self remote (some p)
          = (dset remote p.agent_id p, some (PresenceCb.updated p.agent_id))) ∧
      (¬ ex.last_updated < p.last_updated →
        handleAgentActive self remote (some p) = (remote, none))) ∧
    (p.node_id ≠ self → dlookup remote p.agent_id = none →
      handleAgentInfo self remote (some p) (some self)
        = (dset remote p.agent_id p, some (PresenceCb.discovered p.agent_id))) ∧
    (p.node_id ≠ self → dlookup remote p.agent_id = some ex →
      (ex.last_updated < p.last_updated →
        handleAgentInfo self remote (some p) (some self)
          = (dset remote p.agent_id p, some (PresenceCb.updated p.agent_id))) ∧
      (¬ ex.last_updated < p.last_updated →
        handleAgentInfo self remote (some p) (some self) = (remote, none))) ∧
    (tgt ≠ some self →
      handleAgentInfo self remote (some p) tgt = (remote, none)) ∧
    (∀ (evs : List (Nat × PEvent)) (s : PresenceState) (id : String)
        (p₀ p₁ : Presence),
      (∀ te ∈ evs, ∀ a n, te.2 ≠ PEvent.inactiveMsg a n) →
      dlookup s.remote_agents id = some p₀ →
      dlookup (presenceRun self s evs).remote_agents id = some p₁ →
      p₀.last_updated ≤ p₁.last_updated) := by
  refine ⟨?_, ?_, ?_, ?_, ?_, ?_⟩
  · intro hp hn
    simp [handleAgentActive, hp, hn]
  · intro hp hn
    constructor
    · intro hlt
      simp [handleAgentActive, hp, hn, hlt]
    · intro hlt
      simp [handleAgentActive, hp, hn, hlt]
  · intro hp hn
    simp [handleAgentInfo, hp, hn]
  · intro hp hn
    constructor
    · intro hlt
      simp [handleAgentInfo, hp, hn, hlt]
    · intro hlt
      simp [handleAgentInfo, hp, hn, hlt]
  · intro ht
    simp [handleAgentInfo, ht]
  · exact fun evs s id p₀ p₁ h h0 h1 => remote_run_mono self evs s id p₀ p₁ h h0 h1

/-- Witness for C5: a fresh foreign announcement is inserted and fires
`agent_discovered`; running the counterexample-free event list keeps
`last_updated` non-decreasing. -/
theorem spec_C5_witness :
    presWit.node_id ≠ "nodeA" ∧
    dlookup ([] : List (String × Presence)) presWit.agent_id = none ∧
    handleAgentActive "nodeA" [] (some presWit)
      = (dset [] presWit.agent_id presWit,
          some (PresenceCb.discovered presWit.agent_id)) :=
  ⟨by decide, by decide,
    (spec_C5 "nodeA" [] presWit presWit none).1 (by decide) (by decide)⟩

/-! ## Claim C9 -/

/-- Every service step preserves the property that all remote entries
name a foreign hosting node. -/
theorem remote_foreign_step (self : String) (now : Nat) (s : PresenceState)
    (e : PEvent)
    (hinv : ∀ kv ∈ s.remote_agents, kv.2.node_id ≠ self) :
    ∀ kv ∈ (presenceStep self now s e).remote_agents,
      kv.2.node_id ≠ self := by
  cases e with
  | register aid caps => exact hinv
  | unregister aid =>
    rcases hl : dlookup s.local_agents aid with _ | q <;>
      simpa [presenceStep, hl] using hinv
  | updateCaps aid caps =>
    rcases hl : dlookup s.local_agents aid with _ | q <;>
      simpa [presenceStep, hl] using hinv
  | inactiveMsg a n =>
    intro kv hkv
    simp only [presenceStep, handleAgentInactive] at hkv
    rcases a with _ | aid
    · exact hinv kv hkv
    · rcases n with _ | nid
      · exact hinv kv hkv
      · dsimp only at hkv
        by_cases hz : aid = "" ∨ nid = ""
        · rw [if_pos hz] at hkv
          exact hinv kv hkv
        · rw [if_neg hz] at hkv
          rcases hq : dlookup s.remote_agents aid with _ | q
          · rw [hq] at hkv
            exact hinv kv hkv
          · rw [hq] at hkv
            dsimp only at hkv
            by_cases hmatch : q.node_id = nid
            · rw [if_pos hmatch] at hkv
              exact hinv kv (mem_of_mem_ddel _ _ _ hkv)
            · rw [if_neg hmatch] at hkv
              exact hinv kv hkv
  | activeMsg pOpt =>
    intro kv hkv
    simp only [presenceStep, handleAgentActive] at hkv
    rcases pOpt with _ | q
    · exact hinv kv hkv
    · dsimp only at hkv
      by_cases hq : q.node_id = self
      · rw [if_pos hq] at hkv
        exact hinv kv hkv
      · rw [if_neg hq] at hkv
        rcases hlook : dlookup s.remote_agents q.agent_id with _ | ex
        · rw [hlook] at hkv
          dsimp only at hkv
          rcases mem_of_mem_dset _ _ _ _ hkv with hkv | hkv
          · simpa [hkv] using hq
          · exact hinv kv hkv
        · rw [hlook] at hkv
          dsimp only at hkv
          by_cases hnew : ex.last_updated < q.last_updated
          · rw [if_pos hnew] at hkv
            rcases mem_of_mem_dset _ _ _ _ hkv with hkv | hkv
            · simpa [hkv] using hq
            · exact hinv kv hkv
          · rw [if_neg hnew] at hkv
            exact hinv kv hkv
  | infoMsg pOpt tgt =>
    intro kv hkv
    simp only [presenceStep, handleAgentInfo] at hkv
    rcases pOpt with _ | q
    · exact hinv kv hkv
    · dsimp only at hkv
      by_cases htgt : tgt ≠ some self
      · rw [if_pos htgt] at hkv
        exact hinv kv hkv
      · rw [if_neg htgt] at hkv
        by_cases hq : q.node_id = self
        · rw [if_pos hq] at hkv
          exact hinv kv hkv
        · rw [if_neg hq] at hkv
          rcases hlook : dlookup s.remote_agents q.agent_id with _ | ex
          · rw [hlook] at hkv
            dsimp only at hkv
            rcases mem_of_mem_dset _ _ _ _ hkv with hkv | hkv
            · simpa [hkv] using hq
            · exact hinv kv hkv
          · rw [hlook] at hkv
            dsimp only at hkv
            by_cases hnew : ex.last_updated < q.last_updated
            · rw [if_pos hnew] at hkv
              rcases mem_of_mem_dset _ _ _ _ hkv with hkv | hkv
              · simpa [hkv] using hq
              · exact hinv kv hkv
            · rw [if_neg hnew] at hkv
              exact hinv kv hkv

/-- C9, refuted as stated and amended: the two presence maps need not be
disjoint (`register_agent` does not evict the id from the remote cache
and the inbound handlers never consult `local_agents`); the invariant
that does hold on every reachable state is that every `remote_agents`
entry records a hosting node different from the local node id. -/
theorem spec_C9 (self : String) (evs : List (Nat × PEvent)) :
    ∀ (id : String) (p : Presence),
      dlookup (presenceRun self presenceInit evs).remote_agents id = some p →
      p.node_id ≠ self := by
  have hrun : ∀ (l : List (Nat × PEvent)) (s : PresenceState),
      (∀ kv ∈ s.remote_agents, kv.2.node_id ≠ self) →
      ∀ kv ∈ (presenceRun self s l).remote_agents,
        kv.2.node_id ≠ self := by
    intro l
    induction l with
    | nil => intro s hs; exact hs
    | cons te rest ih =>
      intro s hs
      obtain ⟨now, e⟩ := te
      exact ih _ (remote_foreign_step self now s e hs)
  intro id p hp
  exact hrun evs presenceInit (by simp [presenceInit]) (id, p)
    (dlookup_mem _ _ _ hp)

/-- Witness for the amended C9 after the two-event run. -/
theorem spec_C9_witness :
    dlookup (presenceRun "nodeA" presenceInit evsCex).remote_agents "a1"
        = some ⟨"a1", "nodeB", [], 5⟩ ∧
    ("nodeB" : String) ≠ "nodeA" :=
  ⟨by decide,
    spec_C9 "nodeA" evsCex "a1" ⟨"a1", "nodeB", [], 5⟩ (by decide)⟩

/-- Counterexample to C9 as stated: after registering `a1` locally and
then receiving a foreign `agent_active` for the same id, `a1` sits in
both `local_agents` and `remote_agents`. -/
theorem spec_C9_cex :
    (dlookup (presenceRun "nodeA" presenceInit evsCex).local_agents "a1").isSome ∧
    (dlookup (presenceRun "nodeA" presenceInit evsCex).remote_agents "a1").isSome := by
  refine ⟨by decide, by decide⟩

/-! ## Claim C2 -/

/-- C2 confirmed: under every locally applied gossip step, a peer
recorded DEAD never changes to any other state — in particular not back
to ALIVE — unless the step is a `state`-sync entry for that peer whose
incarnation strictly exceeds the local record (removal aside, which
leaves no entry at all). -/
theorem spec_C2 (self : String) (now sto dto : Nat) (peers : Peers)
    (hnd : (peers.map Prod.fst).Nodup)
    (e : GEvent) (pid : String) (p p' : Peer)
    (hbefore : dlookup peers pid = some p)
    (hdead : p.state = some PState.dead)
    (hafter : dlookup (gossipStep self now sto dto peers e) pid = some p')
    (halive : p'.state ≠ some PState.dead) :
    ∃ entry, e = GEvent.syncEntry pid entry ∧
      entry.incarnation.getD 0 > p.incarnation.getD 0 := by
  have contra2 : dlookup (gossipStep self now sto dto peers e) pid
      = dlookup peers pid → False := by
    intro hequ
    rw [hequ, hbefore] at hafter
    exact halive ((Option.some.inj hafter) ▸ hdead)
  cases e with
  | update pid' ip port st =>
    exfalso
    by_cases hself : pid' = self
    · exact contra2 (by simp [gossipStep, updatePeer, hself])
    · rcases hl : dlookup peers pid' with _ | q
      · by_cases hpp' : pid' = pid
        · rw [hpp', hbefore] at hl
          exact absurd hl (by simp)
        · refine contra2 ?_
          simp only [gossipStep, updatePeer, if_neg hself, hl]
          exact dlookup_dset_ne _ _ _ _ (fun h => hpp' h.symm)
      · by_cases hpp' : pid' = pid
        · subst hpp'
          have hq : q = p := Option.some.inj (hl.symm.trans hbefore)
          subst hq
          simp only [gossipStep, updatePeer, if_neg hself, hl] at hafter
          by_cases hst : st = PState.dead
          · rw [if_pos hst, dlookup_dset_self] at hafter
            exact halive ((Option.some.inj hafter) ▸ rfl)
          · by_cases hst2 : st = PState.suspect
            · rw [if_neg hst, if_pos hst2] at hafter
              rw [show ({ q with last_seen := now } : Peer).state = some PState.dead
                from hdead] at hafter
              dsimp only at hafter
              rw [if_neg (by decide), dlookup_dset_self] at hafter
              refine halive ((Option.some.inj hafter) ▸ ?_)
              rfl
            · rw [if_neg hst, if_neg hst2, dlookup_dset_self] at hafter
              refine halive ((Option.some.inj hafter) ▸ ?_)
              exact hdead
        · refine contra2 ?_
          have hne : pid ≠ pid' := fun h => hpp' h.symm
          simp only [gossipStep, updatePeer, if_neg hself, hl]
          repeat' split
          all_goals exact dlookup_dset_ne _ _ _ _ hne
  | ack sender target =>
    exfalso
    by_cases ht : target = some self
    · rcases hl : dlookup peers sender with _ | q
      · exact contra2 (by simp [gossipStep, handleAck, ht, hl])
      · by_cases hs : q.state = some PState.suspect
        · by_cases hsp : sender = pid
          · rw [hsp, hbefore] at hl
            have hq : q = p := (Option.some.inj hl).symm
            rw [hq, hdead] at hs
            exact absurd (Option.some.inj hs) (by decide)
          · refine contra2 ?_
            simp only [gossipStep, handleAck, if_pos ht, hl, if_pos hs]
            exact dlookup_dset_ne _ _ _ _ (fun h => hsp h.symm)
        · exact contra2 (by simp [gossipStep, handleAck, ht, hl, hs])
    · exact contra2 (by simp [gossipStep, handleAck, ht])
  | syncEntry pid' entry =>
    by_cases hself : pid' = self
    · exact absurd (contra2 (by simp [gossipStep, syncEntryStep, hself])) id
    · rcases hl : dlookup peers pid' with _ | q
      · exfalso
        by_cases hpp' : pid' = pid
        · rw [hpp', hbefore] at hl
          exact absurd hl (by simp)
        · refine contra2 ?_
          have hne : pid ≠ pid' := fun h => hpp' h.symm
          simp only [gossipStep, syncEntryStep, if_neg hself, hl]
          repeat' split
          all_goals first
            | rfl
            | exact dlookup_dset_ne _ _ _ _ hne
      · by_cases hinc : entry.incarnation.getD 0 > q.incarnation.getD 0
        · by_cases hpp' : pid' = pid
          · subst hpp'
            have hq : q = p := Option.some.inj (hl.symm.trans hbefore)
            exact ⟨entry, rfl, hq ▸ hinc⟩
          · exfalso
            refine contra2 ?_
            simp only [gossipStep, syncEntryStep, if_neg hself, hl, if_pos hinc]
            exact dlookup_dset_ne _ _ _ _ (fun h => hpp' h.symm)
        · exact absurd (contra2 (by
            simp [gossipStep, syncEntryStep, hself, hl, hinc])) id
  | suspect pidOpt =>
    exfalso
    rcases pidOpt with _ | id
    · exact contra2 (by simp [gossipStep, handleSuspect])
    · by_cases hz : id = "" ∨ id = self
      · exact contra2 (by simp [gossipStep, handleSuspect, hz])
      · rcases hl : dlookup peers id with _ | q
        · exact contra2 (by simp [gossipStep, handleSuspect, hz, hl])
        · rcases hqs : q.state with _ | s
          · exact contra2 (by simp [gossipStep, handleSuspect, hz, hl, hqs])
          · by_cases hsd : s = PState.dead
            · exact contra2 (by simp [gossipStep, handleSuspect, hz, hl, hqs, hsd])
            · by_cases hip : id = pid
              · rw [hip, hbefore] at hl
                have hq : q = p := (Option.some.inj hl).symm
                rw [hq, hdead] at hqs
                exact hsd (Option.some.inj hqs).symm
              · refine contra2 ?_
                simp only [gossipStep, handleSuspect, if_neg hz, hl, hqs]
                rw [if_pos (by simpa using hsd)]
                exact dlookup_dset_ne _ _ _ _ (fun h => hip h.symm)
  | dead pidOpt =>
    exfalso
    rcases pidOpt with _ | id
    · exact contra2 (by simp [gossipStep, handleDead])
    · by_cases hz : id = "" ∨ id = self
      · exact contra2 (by simp [gossipStep, handleDead, hz])
      · rcases hl : dlookup peers id with _ | q
        · exact contra2 (by simp [gossipStep, handleDead, hz, hl])
        · by_cases hip : id = pid
          · subst hip
            simp only [gossipStep, handleDead, if_neg hz, hl] at hafter
            rw [dlookup_dset_self] at hafter
            exact halive ((Option.some.inj hafter) ▸ rfl)
          · refine contra2 ?_
            simp only [gossipStep, handleDead, if_neg hz, hl]
            exact dlookup_dset_ne _ _ _ _ (fun h => hip h.symm)
  | checkPeer pid0 =>
    exfalso
    rcases hl : dlookup peers pid0 with _ | q
    · exact contra2 (by simp [gossipStep, checkPeerStep, hl])
    · by_cases hip : pid0 = pid
      · subst hip
        have hq : q = p := Option.some.inj (hl.symm.trans hbefore)
        subst hq
        simp only [gossipStep, checkPeerStep, hl, hdead] at hafter
        by_cases htm : now - q.last_seen > dto
        · rw [if_pos htm] at hafter
          rw [dlookup_ddel_self _ _ hnd] at hafter
          exact absurd hafter (by simp)
        · rw [if_neg htm, hbefore] at hafter
          exact halive ((Option.some.inj hafter) ▸ hdead)
      · refine contra2 ?_
        have hne : pid ≠ pid0 := fun h => hip h.symm
        simp only [gossipStep, checkPeerStep, hl]
        repeat' split
        all_goals first
          | rfl
          | exact dlookup_dset_ne _ _ _ _ hne
          | exact dlookup_ddel_ne _ _ _ hne

/-- Witness for C2: the dead peer `p1` leaves DEAD only through the
incarnation-1 sync entry, and the theorem pins that entry as the cause. -/
theorem spec_C2_witness :
    (peersDeadW.map Prod.fst).Nodup ∧
    dlookup peersDeadW "p1" = some peerDeadW ∧
    peerDeadW.state = some PState.dead ∧
    dlookup (gossipStep "selfnode" 5 10 60 peersDeadW
        (GEvent.syncEntry "p1" entryW)) "p1"
      = some (mergePeer peerDeadW entryW) ∧
    (mergePeer peerDeadW entryW).state ≠ some PState.dead ∧
    (∃ entry, GEvent.syncEntry "p1" entryW = GEvent.syncEntry "p1" entry ∧
      entry.incarnation.getD 0 > peerDeadW.incarnation.getD 0) :=
  ⟨by decide, by decide, by decide, by decide, by decide,
    spec_C2 "selfnode" 5 10 60 peersDeadW (by decide)
      (GEvent.syncEntry "p1" entryW) "p1" peerDeadW
      (mergePeer peerDeadW entryW) (by decide) (by decide)
      (by decide) (by decide)⟩

end Cerebrum
